import Mathlib

/-!
Verification of `openai_client_version.py` (batch game-text localization tool).

Shallow embedding conventions:
* Python `str` is modelled as `List Char` (`Str`), so that `str.split`,
  `str.join`, `str.strip`, slicing and the BOM check can be modelled by
  structurally recursive functions amenable to proof.
* Python `dict[str, ...]` (rows, the description cache, parsed JSON
  objects) is modelled as an association list `List (Str × α)` with
  Python-insertion-order semantics (`dget` = `dict.get`, `dictInsert` =
  `d[k] = v`: update in place if the key exists, else append).
* External effects (reading an image file, the vision API call, the
  localization API call) are modelled by a `World` record of oracle
  functions; a raised exception is an `Except.error` carrying `str(e)`.
  `World.readImage` returns the base64-encoded bytes of the file, or the
  exception raised by `open`/`read`.
* The parsed JSON reply of the localization call is modelled structurally
  (`ProviderOutcome`): a raised call-layer exception, a reply that fails
  `json.loads`, or a parsed top-level object whose values are string maps.
-/

set_option maxRecDepth 4000
set_option maxHeartbeats 1000000
set_option synthInstance.maxHeartbeats 1000000

abbrev Str := List Char

abbrev Dict := List (Str × Str)

abbrev Row := List (Str × Str)

/-- Python `d.get(k)`: first binding of `k` in the association list. -/
def dget (m : List (Str × α)) (k : Str) : Option α :=
  match m with
  | [] => none
  | (k', v) :: rest => if k' = k then some v else dget rest k

/-- Python `d[k] = v`: replace in place if `k` is bound, else append. -/
def dictInsert (k : Str) (v : α) : List (Str × α) → List (Str × α)
  | [] => [(k, v)]
  | (k', v') :: rest => if k' = k then (k, v) :: rest else (k', v') :: dictInsert k v rest

/-- Python `sep.join(parts)` for a one-character separator list. -/
def joinSep (sep : Str) : List Str → Str
  | [] => []
  | [x] => x
  | x :: xs => x ++ sep ++ joinSep sep xs

/-- Python `s.split(sep)` for a one-character separator: empty pieces kept. -/
def splitOnChar (sep : Char) : Str → List Str
  | [] => [[]]
  | c :: rest =>
    let groups := splitOnChar sep rest
    if c = sep then [] :: groups
    else (c :: groups.headD []) :: groups.tail

/-- Python `s.strip()`: drop whitespace from both ends. -/
def pyStrip (s : Str) : Str :=
  ((s.dropWhile Char.isWhitespace).reverse.dropWhile Char.isWhitespace).reverse

/-- Python `s.startswith(p)` (as a recursive prefix test). -/
def begins : Str → Str → Bool
  | [], _ => true
  | _ :: _, [] => false
  | p :: ps, c :: cs => if p = c then begins ps cs else false

/-- Python `os.path.basename` for slash-separated paths. -/
def basename (p : Str) : Str :=
  (splitOnChar '/' p).getLastD []

/-- Python `os.path.join(d, f)` for the cases arising here (one component). -/
def pathJoin (d : Str) (f : Str) : Str :=
  if f.headD ' ' = '/' then f
  else if d = [] then f
  else if d.getLastD ' ' = '/' then d ++ f
  else d ++ '/' :: f

/-- ASCII reading of the regex class `\w` (`[A-Za-z0-9_]`). -/
def isWordChar (c : Char) : Bool := c.isAlphanum || c = '_'

/-! ## TabularCodec: `read_semicolon_csv` / `write_semicolon_csv` -/

/-- The hardcoded header list of `read_semicolon_csv` (source line 342). -/
def HEADERS : List Str :=
  ["KEY".toList, "LEVEL_ID".toList, "Text_ID".toList, "image_id".toList,
   "en".toList, "tr".toList, "de".toList, "fr".toList]

/-- `if content.startswith('\uFEFF'): content = content[1:]` -/
def stripBOM : Str → Str
  | '\uFEFF' :: rest => rest
  | s => s

/-- The row constructor of `read_semicolon_csv` (source lines 361-363):
`row[header] = values[i] if i < len(values) else ""`. -/
def buildRow (values : List Str) : Row :=
  HEADERS.enum.map (fun p => (p.2, values.getD p.1 []))

/-- One line of the body loop of `read_semicolon_csv`: the row produced by a
line, if any (blank lines skipped, short lines dropped). -/
def decodeLine (line : Str) : Option Row :=
  if pyStrip line = [] then none
  else
    let values := splitOnChar ';' line
    if HEADERS.length ≤ values.length then some (buildRow values) else none

/-- `read_semicolon_csv` (source lines 339-366), on the file's text content. -/
def read_semicolon_csv (content : Str) : List Str × List Row :=
  let content := stripBOM content
  let lines := splitOnChar '\n' content
  let rows := (lines.drop 1).foldl
    (fun acc line =>
      if pyStrip line = [] then acc
      else
        let values := splitOnChar ';' line
        if HEADERS.length ≤ values.length then acc ++ [buildRow values] else acc)
    []
  (HEADERS, rows)

/-- The per-row output line of `write_semicolon_csv` (values in header order,
absent keys as empty strings, then joined with `;` and a newline). -/
def rowLine (headers : List Str) (row : Row) : Str :=
  joinSep (";".toList) (headers.map fun h => (dget row h).getD []) ++ "\n".toList

/-- `write_semicolon_csv` (source lines 409-439), as the text written to the
file; the leading `'\uFEFF'` models the `utf-8-sig` byte-order marker. -/
def write_semicolon_csv (rows : List Row) (headers : List Str) : Str :=
  '\uFEFF' :: ((joinSep (";".toList) headers ++ "\n".toList) ++
    rows.foldl (fun acc row => acc ++ rowLine headers row) [])

/-! ## ImageLocator: `get_image_path` -/

/-- Match of `^0*<id>\.\w+$` at the zero-exhausted position: the name is the
id, then a dot, then a non-empty extension of word characters. -/
def matchIdDotExt (iid fn : Str) : Bool :=
  begins iid fn &&
    match fn.drop iid.length with
    | c :: ext => if c = '.' then !ext.isEmpty && ext.all isWordChar else false
    | [] => false

/-- `re.compile(r"^0*" + id + r"\.\w+$").match(fn)` for a literal id: some
prefix of zeros, then the id, a dot, and a word-character extension. -/
def primaryMatch (iid : Str) : Str → Bool
  | [] => matchIdDotExt iid []
  | c :: rest =>
    matchIdDotExt iid (c :: rest) || (if c = '0' then primaryMatch iid rest else false)

/-- Match of `<id>[^0-9]` at the current position. -/
def matchIdNonDigit (iid fn : Str) : Bool :=
  begins iid fn &&
    match fn.drop iid.length with
    | c :: _ => !c.isDigit
    | [] => false

/-- `re.compile(r".*?" + id + r"[^0-9].*").match(fn)` for a literal id: the id
followed by a non-digit occurs after a newline-free prefix (`.` in the
pattern does not cross `'\n'`). -/
def fallbackMatch (iid : Str) : Str → Bool
  | [] => matchIdNonDigit iid []
  | c :: rest =>
    matchIdNonDigit iid (c :: rest) || (if c = '\n' then false else fallbackMatch iid rest)

/-- `get_image_path` (source lines 64-87). `listing` is the (order-relevant)
result of `os.listdir(imgs_dir)`. -/
def get_image_path (imgs_dir : Str) (listing : List Str) (image_id : Str) : Option Str :=
  if image_id = [] then none
  else if pyStrip image_id = [] then none
  else
    match listing.find? (fun fn => primaryMatch (pyStrip image_id) fn) with
    | some fn => some (pathJoin imgs_dir fn)
    | none =>
      match listing.find? (fun fn => fallbackMatch (pyStrip image_id) fn) with
      | some fn => some (pathJoin imgs_dir fn)
      | none => none

/-! ## Providers: `encode_image`, `get_image_description`, `process_localization` -/

/-- Outcome of one localization API call, as seen by `process_localization`:
the call raised (reason `str(e)`), the reply failed `json.loads`, or it
parsed to a top-level JSON object (values restricted to string maps, the
shape the code's key checks expect). -/
inductive ProviderOutcome
  | raised (reason : Str)
  | badJson
  | parsed (result : List (Str × Dict))

/-- The external world of one run: file reads and the two API endpoints,
determinized as functions. `readImage p` is the base64 payload of the file
at `p` (or the exception of `open`/`read`); `visionCall url` is the vision
model's reply text (or the exception raised by the call layer);
`locCall model description english` is the localization call's outcome. -/
structure World where
  readImage : Str → Except Str Str
  visionCall : Str → Except Str Str
  locCall : Str → Str → Str → ProviderOutcome

/-- `encode_image` (source lines 54-57): raises if the file cannot be read,
else produces the inline data URL. -/
def encode_image (w : World) (image_path : Str) : Except Str Str :=
  match w.readImage image_path with
  | .ok data => .ok ("data:image/png;base64,".toList ++ data)
  | .error e => .error e

/-- The fixed error string of `get_image_description`'s handler (line 139). -/
def errDescription : Str := "Error: Could not generate image description".toList

/-- `get_image_description` (source lines 89-139). In debug mode a mock
description; otherwise `encode_image` runs OUTSIDE the try block (its
exception propagates), and only the API call's failure is converted to
`errDescription`. -/
def get_image_description (w : World) (image_path : Str) (debug : Bool) : Except Str Str :=
  if debug then
    .ok ("This is a debug description for image ".toList ++ basename image_path)
  else
    match encode_image w image_path with
    | .error e => .error e
    | .ok image_url =>
      match w.visionCall image_url with
      | .ok description => .ok description
      | .error _ => .ok errDescription

/-- The language-name to CSV-column map (source lines 42-46). -/
def LANGUAGE_CODES : List (Str × Str) :=
  [("turkish".toList, "tr".toList), ("french".toList, "fr".toList),
   ("german".toList, "de".toList)]

/-- The uniform error result of `process_localization` (all three languages
set to `"[ERROR: <reason>] " + english_text`). -/
def errPlaceholder (reason english_text : Str) : List (Str × Dict) :=
  [("localization".toList,
    [("turkish".toList, "[ERROR: ".toList ++ reason ++ "] ".toList ++ english_text),
     ("french".toList, "[ERROR: ".toList ++ reason ++ "] ".toList ++ english_text),
     ("german".toList, "[ERROR: ".toList ++ reason ++ "] ".toList ++ english_text)])]

/-- One iteration of the missing-language loop (source lines 307-310). -/
def stepFill (english_text : Str) (acc : Dict) (lang : Str) : Dict :=
  match dget acc lang with
  | some _ => acc
  | none =>
    dictInsert lang
      ("[ERROR: Missing ".toList ++ lang ++ " translation] ".toList ++ english_text) acc

/-- The missing-language loop over `['turkish', 'french', 'german']`. -/
def fillMissing (loc : Dict) (english_text : Str) : Dict :=
  ["turkish".toList, "french".toList, "german".toList].foldl (stepFill english_text) loc

/-- `process_localization` (source lines 141-337). Debug mode returns tagged
placeholders; otherwise the call outcome is handled branch by branch as in
the source: raised call → placeholder with `str(e)`; unparseable reply →
`Invalid JSON` placeholder; no `localization` key → `Missing localization
data` placeholder; present container → each missing language key filled
individually. -/
def process_localization (w : World) (description english_text model_id model_name : Str)
    (debug : Bool) : List (Str × Dict) :=
  if debug then
    [("localization".toList,
      [("turkish".toList, "[TR] ".toList ++ english_text),
       ("french".toList, "[FR] ".toList ++ english_text),
       ("german".toList, "[DE] ".toList ++ english_text)])]
  else
    match w.locCall model_name description english_text with
    | .raised e => errPlaceholder e english_text
    | .badJson => errPlaceholder ("Invalid JSON".toList) english_text
    | .parsed result =>
      match dget result ("localization".toList) with
      | none => errPlaceholder ("Missing localization data".toList) english_text
      | some loc => dictInsert ("localization".toList) (fillMissing loc english_text) result

/-! ## RowProcessor: `process_row` -/

/-- Field extraction of `process_row` (source lines 371-375):
`row.get(k, '').strip() if row.get(k) else ''`. -/
def rowField (row : Row) (k : Str) : Str :=
  match dget row k with
  | some s => if s = [] then [] else pyStrip s
  | none => []

/-- One iteration of the language-update loop of `process_row` (source lines
403-405): write the returned language, if present, into its column. -/
def langStep (localizations : Dict) (r : Row) (p : Str × Str) : Row :=
  match dget localizations p.1 with
  | some v => dictInsert p.2 v r
  | none => r

/-- The language-update loop of `process_row` (source lines 402-405). -/
def applyLangs (localizations : Dict) (row : Row) : Row :=
  LANGUAGE_CODES.foldl (langStep localizations) row

/-- The tail of `process_row` after a description is available (source lines
398-407): run the localization, write back the returned languages, return
the updated row and the description. -/
def applyLoc (w : World) (row : Row) (description english_text model_id model_name : Str)
    (debug : Bool) : Row × Option Str :=
  let result := process_localization w description english_text model_id model_name debug
  let localizations := (dget result ("localization".toList)).getD []
  (applyLangs localizations row, some description)

/-- Observable outcome of one `process_row` call: its return value (or the
exception it propagates), the description cache afterwards, the image ids
for which `get_image_description` was invoked, and whether
`process_localization` was invoked. -/
structure RowStep where
  outcome : Except Str (Row × Option Str)
  cache : Dict
  descCalls : List Str
  locCalled : Bool

/-- `process_row` (source lines 368-407). Skips (blank `image_id`/`en`, or
unresolvable image) return the row unchanged with no description; a cached
id is reused without a vision call; a fresh id is resolved, described, and
cached before localization. -/
def process_row (w : World) (row : Row) (imgs_dir : Str) (listing : List Str) (cache : Dict)
    (model_id model_name : Str) (debug : Bool) : RowStep :=
  let image_id := rowField row ("image_id".toList)
  let english_text := rowField row ("en".toList)
  if image_id = [] ∨ english_text = [] then
    ⟨.ok (row, none), cache, [], false⟩
  else
    match dget cache image_id with
    | some description =>
      ⟨.ok (applyLoc w row description english_text model_id model_name debug),
       cache, [], true⟩
    | none =>
      match get_image_path imgs_dir listing image_id with
      | none => ⟨.ok (row, none), cache, [], false⟩
      | some image_path =>
        match get_image_description w image_path debug with
        | .error e => ⟨.error e, cache, [image_id], false⟩
        | .ok description =>
          ⟨.ok (applyLoc w row description english_text model_id model_name debug),
           dictInsert image_id description cache, [image_id], true⟩

/-! ## BatchRunner: `process_csv_file` -/

/-- The model table (source lines 29-36), in declaration order. -/
def MODELS : List (Str × Str) :=
  [("1-gemini flash 1.5 8B".toList, "google/gemini-flash-1.5-8b".toList),
   ("2-gemini flash 2.0".toList, "google/gemini-2.0-flash-001".toList),
   ("3-GPT 4-o mini".toList, "openai/gpt-4o-mini".toList),
   ("4-GPT 4.1".toList, "openai/gpt-4.1-mini".toList),
   ("5-Claude 3.7 Sonnet".toList, "anthropic/claude-3-7-sonnet".toList),
   ("6-Grok 3".toList, "x-ai/grok-3-beta".toList)]

/-- The vision model identifier (source line 39). -/
def VISION_MODEL : Str := "google/gemini-pro-vision".toList

/-- One record of the structured (JSON) output (source lines 506-517). -/
structure JsonRecord where
  KEY : Str
  LEVEL_ID : Str
  image_id : Str
  en : Str
  description : Str
  tr : Str
  fr : Str
  de : Str
  deriving DecidableEq

/-- The JSON record built from a processed row (fields are the raw, already
updated row values; `image_id` is the raw field as in line 503). -/
def mkRecord (urow : Row) (description : Str) : JsonRecord :=
  ⟨(dget urow ("KEY".toList)).getD [], (dget urow ("LEVEL_ID".toList)).getD [],
   (dget urow ("image_id".toList)).getD [], (dget urow ("en".toList)).getD [],
   description,
   (dget urow ("tr".toList)).getD [], (dget urow ("fr".toList)).getD [],
   (dget urow ("de".toList)).getD []⟩

/-- Result of the per-model row loop (source lines 486-526): the model's row
set, its structured-record list, the cache afterwards, and the image ids
for which `get_image_description` was invoked, in order. -/
structure RowsOut where
  rows : List Row
  records : List JsonRecord
  cache : Dict
  descCalls : List Str

/-- One iteration of the per-model row loop (source lines 492-518): the row
kept in `model_rows[i]` and the records it contributes. A raising row is
caught and left unchanged; a processed row with a truthy description
contributes a structured record (`if updated_row and description:`). -/
def keptOf (row : Row) (outcome : Except Str (Row × Option Str)) :
    Row × List JsonRecord :=
  match outcome with
  | .error _ => (row, [])
  | .ok (urow, none) => (urow, [])
  | .ok (urow, some description) =>
    (urow, if urow = [] ∨ description = [] then [] else [mkRecord urow description])

/-- The per-model row loop (source lines 486-526). -/
def runRows (w : World) (imgs_dir : Str) (listing : List Str) (model_id model_name : Str)
    (debug : Bool) : List Row → Dict → RowsOut
  | [], cache => ⟨[], [], cache, []⟩
  | row :: rest, cache =>
    let step := process_row w row imgs_dir listing cache model_id model_name debug
    let kept := keptOf row step.outcome
    let restOut := runRows w imgs_dir listing model_id model_name debug rest step.cache
    ⟨kept.1 :: restOut.rows, kept.2 ++ restOut.records, restOut.cache,
     step.descCalls ++ restOut.descCalls⟩

/-- The two output artifacts of one model (source lines 528-541): its id, its
forked row set, the CSV text written for it, and its record list. -/
structure ModelOutput where
  model_id : Str
  rows : List Row
  csv : Str
  records : List JsonRecord
  deriving DecidableEq

/-- Observable result of a whole run. -/
structure RunResult where
  outputs : List ModelOutput
  cache : Dict
  descCalls : List Str

/-- The per-model loop of `process_csv_file` (source lines 482-541): each
model starts from a fresh copy of the base rows, the description cache is
threaded through all models. -/
def runModels (w : World) (imgs_dir : Str) (listing : List Str) (debug : Bool)
    (rows : List Row) : List (Str × Str) → Dict → RunResult
  | [], cache => ⟨[], cache, []⟩
  | (model_id, model_name) :: ms, cache =>
    let mout := runRows w imgs_dir listing model_id model_name debug rows cache
    let restRun := runModels w imgs_dir listing debug rows ms mout.cache
    ⟨⟨model_id, mout.rows, write_semicolon_csv mout.rows HEADERS, mout.records⟩ ::
       restRun.outputs,
     restRun.cache, mout.descCalls ++ restRun.descCalls⟩

/-- The decoded and optionally truncated base row set (source lines 453,
477-479; `if limit and limit > 0: rows = rows[:limit]`). -/
def baseRows (content : Str) (limit : Option Nat) : List Row :=
  let rows := (read_semicolon_csv content).2
  match limit with
  | some n => if 0 < n then rows.take n else rows
  | none => rows

/-- `process_csv_file` (source lines 441-543) on the data file's text
content: one empty cache for the run, then the model loop. -/
def process_csv_file (w : World) (content : Str) (imgs_dir : Str) (listing : List Str)
    (debug : Bool) (limit : Option Nat) : RunResult :=
  runModels w imgs_dir listing debug (baseRows content limit) MODELS []

/-- A field value that survives the codec: no separator, no line break. -/
def goodVal (v : Str) : Prop := ';' ∉ v ∧ '\n' ∉ v

/-- A row with exactly the 8 fixed fields in header order, all values
codec-safe (the precondition of the round-trip property). -/
def goodRow (row : Row) : Prop :=
  row.map Prod.fst = HEADERS ∧ ∀ p ∈ row, goodVal p.2

/-- The body of a row's output line, before the trailing newline. -/
def lineCore (row : Row) : Str :=
  joinSep (";".toList) (HEADERS.map fun h => (dget row h).getD [])

instance goodValDecidable (v : Str) : Decidable (goodVal v) := by
  unfold goodVal
  infer_instance

instance goodRowDecidable (r : Row) : Decidable (goodRow r) := by
  unfold goodRow
  infer_instance

/-- `result.get('localization', {})`: the language map of a localization
result (source line 402). -/
def locOf (result : List (Str × Dict)) : Dict :=
  (dget result ("localization".toList)).getD []

/-- A concrete well-formed row set used to instantiate the round-trip. -/
def demoRows : List Row :=
  [[("KEY".toList, "k1".toList), ("LEVEL_ID".toList, "l1".toList),
    ("Text_ID".toList, "t1".toList), ("image_id".toList, "1".toList),
    ("en".toList, "Hello".toList), ("tr".toList, []), ("de".toList, []),
    ("fr".toList, [])],
   [("KEY".toList, "k2".toList), ("LEVEL_ID".toList, "l2".toList),
    ("Text_ID".toList, "t2".toList), ("image_id".toList, "2".toList),
    ("en".toList, "World".toList), ("tr".toList, "var".toList),
    ("de".toList, "da".toList), ("fr".toList, "ici".toList)]]

/-- The description provider never raises: either debug mode (no file read,
no API call), or every image file is readable (API failures are caught). -/
def noDescRaise (w : World) (debug : Bool) : Prop :=
  debug = true ∨ ∀ p, ∃ b, w.readImage p = Except.ok b

/-- Boolean check that a structured record carries non-blank `image_id` and
`en` fields. -/
def recNonblank (rec : JsonRecord) : Bool :=
  !(pyStrip rec.image_id).isEmpty && !(pyStrip rec.en).isEmpty

/-- A world whose file reads raise (`open` fails with reason `boom`). -/
def failReadWorld : World :=
  ⟨fun _ => Except.error ("boom".toList), fun _ => Except.ok ("resp".toList),
   fun _ _ _ => ProviderOutcome.badJson⟩

/-- A world whose file reads succeed but whose vision call raises. -/
def visionFailWorld : World :=
  ⟨fun _ => Except.ok ("b64".toList), fun _ => Except.error ("net".toList),
   fun _ _ _ => ProviderOutcome.badJson⟩

/-- A world where every external call succeeds. -/
def inertWorld : World :=
  ⟨fun _ => Except.ok ("b64".toList), fun _ => Except.ok ("resp".toList),
   fun _ _ _ => ProviderOutcome.parsed
     [("localization".toList,
       [("turkish".toList, "T".toList), ("french".toList, "F".toList),
        ("german".toList, "G".toList)])]⟩

/-- A concrete row with a blank `en` field. -/
def rowBlankEn : Row :=
  [("KEY".toList, "k".toList), ("LEVEL_ID".toList, "l".toList),
   ("Text_ID".toList, "t".toList), ("image_id".toList, "7".toList),
   ("en".toList, []), ("tr".toList, []), ("de".toList, []), ("fr".toList, [])]

/-- A concrete row whose `image_id` resolves to no file in an empty dir. -/
def rowNoImage : Row :=
  [("KEY".toList, "k".toList), ("LEVEL_ID".toList, "l".toList),
   ("Text_ID".toList, "t".toList), ("image_id".toList, "42".toList),
   ("en".toList, "hi".toList), ("tr".toList, []), ("de".toList, []),
   ("fr".toList, [])]

/-- A concrete processable row (`image_id` 7, non-blank `en`). -/
def rowOk : Row :=
  [("KEY".toList, "k".toList), ("LEVEL_ID".toList, "l".toList),
   ("Text_ID".toList, "t".toList), ("image_id".toList, "7".toList),
   ("en".toList, "hi".toList), ("tr".toList, []), ("de".toList, []),
   ("fr".toList, [])]

/-- A two-row table whose rows share `image_id` 7. -/
def sharedIdContent : Str :=
  "KEY;LEVEL_ID;Text_ID;image_id;en;tr;de;fr\nk1;l1;t1;7;hello;;;\nk2;l2;t2;7;world;;;".toList

/-- A two-row table: first row has a blank `image_id`, second a blank `en`. -/
def blankFieldsContent : Str :=
  "KEY;LEVEL_ID;Text_ID;image_id;en;tr;de;fr\nk1;l1;t1;;hello;;;\nk2;l2;t2;7;;;;".toList

/-- The decoded first row of `blankFieldsContent` (blank `image_id`). -/
def blankRow0 : Row :=
  [("KEY".toList, "k1".toList), ("LEVEL_ID".toList, "l1".toList),
   ("Text_ID".toList, "t1".toList), ("image_id".toList, []),
   ("en".toList, "hello".toList), ("tr".toList, []), ("de".toList, []),
   ("fr".toList, [])]

/-! ## Dictionary lemmas -/

theorem dget_dictInsert (k : Str) (v : α) (m : List (Str × α)) (j : Str) :
    dget (dictInsert k v m) j = if j = k then some v else dget m j := by
  induction m with
  | nil =>
    show dget [(k, v)] j = if j = k then some v else none
    by_cases h : j = k
    · subst h
      simp [dget]
    · have h' : ¬k = j := fun hh => h hh.symm
      simp [dget, h, h']
  | cons p rest ih =>
    obtain ⟨k', v'⟩ := p
    by_cases hk : k' = k
    · subst hk
      rw [show dictInsert k' v ((k', v') :: rest) = (k', v) :: rest by
        simp [dictInsert]]
      by_cases h : k' = j
      · subst h
        simp [dget]
      · have h' : ¬j = k' := fun hh => h hh.symm
        simp [dget, h, h']
    · rw [show dictInsert k v ((k', v') :: rest) = (k', v') :: dictInsert k v rest by
        simp [dictInsert, hk]]
      by_cases h1 : k' = j
      · subst h1
        simp [dget, hk]
      · simp [dget, h1, ih]

theorem mem_keys_dictInsert (k : Str) (v : α) (m : List (Str × α)) (j : Str) :
    j ∈ (dictInsert k v m).map Prod.fst ↔ j = k ∨ j ∈ m.map Prod.fst := by
  induction m with
  | nil =>
    show j ∈ [(k, v)].map Prod.fst ↔ _
    simp
  | cons p rest ih =>
    obtain ⟨k', v'⟩ := p
    by_cases hk : k' = k
    · subst hk
      rw [show dictInsert k' v ((k', v') :: rest) = (k', v) :: rest by
        simp [dictInsert]]
      simp
    · rw [show dictInsert k v ((k', v') :: rest) = (k', v') :: dictInsert k v rest by
        simp [dictInsert, hk]]
      simp only [List.map_cons, List.mem_cons, ih]
      constructor
      · rintro (h | h | h)
        · exact Or.inr (Or.inl h)
        · exact Or.inl h
        · exact Or.inr (Or.inr h)
      · rintro (h | h | h)
        · exact Or.inr (Or.inl h)
        · exact Or.inl h
        · exact Or.inr (Or.inr h)

theorem keysNodup_dictInsert (k : Str) (v : α) (m : List (Str × α))
    (h : (m.map Prod.fst).Nodup) : ((dictInsert k v m).map Prod.fst).Nodup := by
  induction m with
  | nil =>
    show ([(k, v)].map Prod.fst).Nodup
    simp
  | cons p rest ih =>
    obtain ⟨k', v'⟩ := p
    simp only [List.map_cons, List.nodup_cons] at h
    by_cases hk : k' = k
    · subst hk
      rw [show dictInsert k' v ((k', v') :: rest) = (k', v) :: rest by
        simp [dictInsert]]
      simp only [List.map_cons, List.nodup_cons]
      exact h
    · rw [show dictInsert k v ((k', v') :: rest) = (k', v') :: dictInsert k v rest by
        simp [dictInsert, hk]]
      simp only [List.map_cons, List.nodup_cons]
      refine ⟨?_, ih h.2⟩
      intro hmem
      rcases (mem_keys_dictInsert k v rest k').1 hmem with h1 | h1
      · exact hk h1
      · exact h.1 h1

theorem dget_eq_none_iff (m : List (Str × α)) (k : Str) :
    dget m k = none ↔ k ∉ m.map Prod.fst := by
  induction m with
  | nil => simp [dget]
  | cons p rest ih =>
    obtain ⟨k', v'⟩ := p
    by_cases h : k' = k
    · subst h
      simp [dget]
    · have h' : ¬k = k' := fun hh => h hh.symm
      simp [dget, h, h', ih]

theorem dget_isSome_of_mem_keys (m : List (Str × α)) (k : Str)
    (h : k ∈ m.map Prod.fst) : (dget m k).isSome = true := by
  cases hd : dget m k with
  | none => exact absurd h ((dget_eq_none_iff m k).1 hd)
  | some v => rfl

/-! ## Split and join lemmas -/

theorem splitOnChar_of_not_mem (sep : Char) (a : Str) (h : sep ∉ a) :
    splitOnChar sep a = [a] := by
  induction a with
  | nil => rfl
  | cons x a' ih =>
    have hx : ¬x = sep := fun hh => h (hh ▸ List.mem_cons_self x a')
    have ha' : sep ∉ a' := fun hh => h (List.mem_cons_of_mem x hh)
    simp [splitOnChar, hx, ih ha']

theorem splitOnChar_append_sep (sep : Char) (a b : Str) (h : sep ∉ a) :
    splitOnChar sep (a ++ sep :: b) = a :: splitOnChar sep b := by
  induction a with
  | nil => simp [splitOnChar]
  | cons x a' ih =>
    have hx : ¬x = sep := fun hh => h (hh ▸ List.mem_cons_self x a')
    have ha' : sep ∉ a' := fun hh => h (List.mem_cons_of_mem x hh)
    simp [splitOnChar, hx, ih ha']

theorem splitOnChar_flatten_lines (sep : Char) (ls : List Str)
    (h : ∀ l ∈ ls, sep ∉ l) :
    splitOnChar sep ((ls.map (fun l => l ++ [sep])).flatten) = ls ++ [[]] := by
  induction ls with
  | nil => rfl
  | cons l ls' ih =>
    have hl : sep ∉ l := h l (List.mem_cons_self l ls')
    have hls' : ∀ x ∈ ls', sep ∉ x := fun x hx => h x (List.mem_cons_of_mem l hx)
    simp only [List.map_cons, List.flatten_cons, List.append_assoc, List.singleton_append]
    rw [splitOnChar_append_sep sep l _ hl, ih hls']
    rfl

theorem splitOnChar_joinSep (sep : Char) (parts : List Str) (hne : parts ≠ [])
    (h : ∀ p ∈ parts, sep ∉ p) :
    splitOnChar sep (joinSep [sep] parts) = parts := by
  induction parts with
  | nil => exact absurd rfl hne
  | cons p ps ih =>
    cases ps with
    | nil =>
      simp only [joinSep]
      exact splitOnChar_of_not_mem sep p (h p (List.mem_cons_self p []))
    | cons q qs =>
      have hp : sep ∉ p := h p (List.mem_cons_self p _)
      have hrest : ∀ x ∈ q :: qs, sep ∉ x := fun x hx => h x (List.mem_cons_of_mem p hx)
      have : joinSep [sep] (p :: q :: qs) = p ++ sep :: joinSep [sep] (q :: qs) := by
        simp [joinSep]
      rw [this, splitOnChar_append_sep sep p _ hp, ih (by simp) hrest]

theorem length_one_of_not_mem (sep : Char) (s : Str) (h : sep ∉ s) :
    (splitOnChar sep s).length = 1 := by
  rw [splitOnChar_of_not_mem sep s h]
  rfl

theorem mem_of_splitOnChar_length_ge_two (sep : Char) (s : Str)
    (h : 2 ≤ (splitOnChar sep s).length) : sep ∈ s := by
  by_contra hn
  rw [length_one_of_not_mem sep s hn] at h
  omega

/-! ## Strip lemmas -/

theorem pyStrip_eq_nil_iff (s : Str) :
    pyStrip s = [] ↔ ∀ c ∈ s, c.isWhitespace := by
  unfold pyStrip
  rw [List.reverse_eq_nil_iff, List.dropWhile_eq_nil_iff]
  constructor
  · intro h c hc
    by_cases hw : c.isWhitespace
    · exact hw
    · exfalso
      have hs := List.takeWhile_append_dropWhile Char.isWhitespace s
      rw [← hs] at hc
      rcases List.mem_append.1 hc with h1 | h1
      · exact hw (List.mem_takeWhile_imp h1)
      · exact hw (h c (List.mem_reverse.2 h1))
  · intro h c hc
    exact h c ((List.dropWhile_sublist Char.isWhitespace).subset (List.mem_reverse.1 hc))

theorem pyStrip_ne_nil (s : Str) (c : Char) (hc : c ∈ s)
    (hw : ¬c.isWhitespace) : pyStrip s ≠ [] := by
  intro h
  exact hw ((pyStrip_eq_nil_iff s).1 h c hc)

/-! ## Join membership lemmas -/

theorem not_mem_joinSep (sep x : Char) (parts : List Str)
    (h : ∀ p ∈ parts, x ∉ p) (hx : x ≠ sep) : x ∉ joinSep [sep] parts := by
  induction parts with
  | nil => simp [joinSep]
  | cons p ps ih =>
    cases ps with
    | nil =>
      simpa [joinSep] using h p (List.mem_cons_self p [])
    | cons q qs =>
      rw [show joinSep [sep] (p :: q :: qs) = p ++ [sep] ++ joinSep [sep] (q :: qs) from rfl]
      intro hmem
      rcases List.mem_append.1 hmem with h1 | h1
      · rcases List.mem_append.1 h1 with h2 | h2
        · exact h p (List.mem_cons_self p _) h2
        · exact hx (List.mem_singleton.1 h2)
      · exact ih (fun r hr => h r (List.mem_cons_of_mem p hr)) h1

theorem mem_joinSep_sep (sep : Char) (parts : List Str)
    (h : 2 ≤ parts.length) : sep ∈ joinSep [sep] parts := by
  match parts with
  | [] => simp at h
  | [p] => simp at h
  | p :: q :: qs =>
    rw [show joinSep [sep] (p :: q :: qs) = p ++ [sep] ++ joinSep [sep] (q :: qs) from rfl]
    exact List.mem_append.2 (Or.inl (List.mem_append.2 (Or.inr (List.mem_singleton.2 rfl))))

/-! ## Codec characterization lemmas -/

theorem reader_step (acc : List Row) (line : Str) :
    (if pyStrip line = [] then acc
     else
       let values := splitOnChar ';' line
       if HEADERS.length ≤ values.length then acc ++ [buildRow values] else acc)
    = acc ++ (decodeLine line).toList := by
  by_cases h1 : pyStrip line = []
  · simp [h1, decodeLine]
  · by_cases h2 : HEADERS.length ≤ (splitOnChar ';' line).length
    · simp [h1, h2, decodeLine]
    · simp [h1, h2, decodeLine]

theorem reader_rows (lines : List Str) :
    ∀ acc : List Row,
      lines.foldl
        (fun acc line =>
          if pyStrip line = [] then acc
          else
            let values := splitOnChar ';' line
            if HEADERS.length ≤ values.length then acc ++ [buildRow values] else acc)
        acc
      = acc ++ lines.filterMap decodeLine := by
  induction lines with
  | nil => simp
  | cons l ls ih =>
    intro acc
    rw [List.foldl_cons, ih]
    simp only [reader_step]
    cases hd : decodeLine l with
    | none => simp [List.filterMap_cons, hd]
    | some r => simp [List.filterMap_cons, hd]

theorem read_rows_eq (content : Str) :
    (read_semicolon_csv content).2
      = ((splitOnChar '\n' (stripBOM content)).drop 1).filterMap decodeLine := by
  show ((splitOnChar '\n' (stripBOM content)).drop 1).foldl _ [] = _
  rw [reader_rows]
  simp

theorem writer_body (rows : List Row) :
    ∀ acc : Str,
      rows.foldl (fun acc row => acc ++ rowLine HEADERS row) acc
        = acc ++ (rows.map (rowLine HEADERS)).flatten := by
  induction rows with
  | nil => simp
  | cons r rs ih =>
    intro acc
    simp only [List.foldl_cons, List.map_cons, List.flatten_cons]
    rw [ih (acc ++ rowLine HEADERS r)]
    simp

theorem write_eq (rows : List Row) :
    write_semicolon_csv rows HEADERS
      = '﻿' :: ((joinSep (";".toList) HEADERS ++ "\n".toList) ++
          (rows.map (rowLine HEADERS)).flatten) := by
  show '﻿' :: (_ ++ List.foldl _ [] rows) = _
  rw [writer_body]
  simp

/-! ## Per-row round-trip lemmas -/

theorem goodRow_shape (r : Row) (h : goodRow r) :
    ∃ v0 v1 v2 v3 v4 v5 v6 v7,
      r = [("KEY".toList, v0), ("LEVEL_ID".toList, v1), ("Text_ID".toList, v2),
           ("image_id".toList, v3), ("en".toList, v4), ("tr".toList, v5),
           ("de".toList, v6), ("fr".toList, v7)]
      ∧ goodVal v0 ∧ goodVal v1 ∧ goodVal v2 ∧ goodVal v3 ∧ goodVal v4 ∧ goodVal v5
      ∧ goodVal v6 ∧ goodVal v7 := by
  obtain ⟨hf, hg⟩ := h
  rcases r with _ | ⟨⟨k0, v0⟩, r⟩
  · exact absurd hf (by simp [HEADERS])
  rcases r with _ | ⟨⟨k1, v1⟩, r⟩
  · exact absurd hf (by simp [HEADERS])
  rcases r with _ | ⟨⟨k2, v2⟩, r⟩
  · exact absurd hf (by simp [HEADERS])
  rcases r with _ | ⟨⟨k3, v3⟩, r⟩
  · exact absurd hf (by simp [HEADERS])
  rcases r with _ | ⟨⟨k4, v4⟩, r⟩
  · exact absurd hf (by simp [HEADERS])
  rcases r with _ | ⟨⟨k5, v5⟩, r⟩
  · exact absurd hf (by simp [HEADERS])
  rcases r with _ | ⟨⟨k6, v6⟩, r⟩
  · exact absurd hf (by simp [HEADERS])
  rcases r with _ | ⟨⟨k7, v7⟩, r⟩
  · exact absurd hf (by simp [HEADERS])
  rcases r with _ | ⟨⟨k8, v8⟩, r⟩
  · simp only [List.map_cons, List.map_nil, HEADERS, List.cons.injEq, and_true] at hf
    obtain ⟨h0, h1, h2, h3, h4, h5, h6, h7⟩ := hf
    subst h0; subst h1; subst h2; subst h3; subst h4; subst h5; subst h6; subst h7
    refine ⟨v0, v1, v2, v3, v4, v5, v6, v7, rfl, ?_, ?_, ?_, ?_, ?_, ?_, ?_, ?_⟩
    exacts [hg ("KEY".toList, v0) (by simp), hg ("LEVEL_ID".toList, v1) (by simp),
      hg ("Text_ID".toList, v2) (by simp), hg ("image_id".toList, v3) (by simp),
      hg ("en".toList, v4) (by simp), hg ("tr".toList, v5) (by simp),
      hg ("de".toList, v6) (by simp), hg ("fr".toList, v7) (by simp)]
  · exact absurd hf (by simp [HEADERS])

theorem lineCore_parts (v0 v1 v2 v3 v4 v5 v6 v7 : Str) :
    HEADERS.map
        (fun h =>
          (dget [("KEY".toList, v0), ("LEVEL_ID".toList, v1), ("Text_ID".toList, v2),
             ("image_id".toList, v3), ("en".toList, v4), ("tr".toList, v5),
             ("de".toList, v6), ("fr".toList, v7)] h).getD [])
      = [v0, v1, v2, v3, v4, v5, v6, v7] := by
  simp [HEADERS, dget]

theorem lineCore_noNL (r : Row) (h : goodRow r) : '\n' ∉ lineCore r := by
  obtain ⟨v0, v1, v2, v3, v4, v5, v6, v7, hr, g0, g1, g2, g3, g4, g5, g6, g7⟩ :=
    goodRow_shape r h
  subst hr
  show '\n' ∉ joinSep (";".toList) _
  rw [lineCore_parts]
  refine not_mem_joinSep ';' '\n' _ ?_ (by decide)
  intro p hp
  simp only [List.mem_cons, List.not_mem_nil, or_false] at hp
  rcases hp with rfl | rfl | rfl | rfl | rfl | rfl | rfl | rfl
  exacts [g0.2, g1.2, g2.2, g3.2, g4.2, g5.2, g6.2, g7.2]

theorem decodeLine_lineCore_shape (v0 v1 v2 v3 v4 v5 v6 v7 : Str)
    (g0 : goodVal v0) (g1 : goodVal v1) (g2 : goodVal v2) (g3 : goodVal v3)
    (g4 : goodVal v4) (g5 : goodVal v5) (g6 : goodVal v6) (g7 : goodVal v7) :
    decodeLine (lineCore
      [("KEY".toList, v0), ("LEVEL_ID".toList, v1), ("Text_ID".toList, v2),
       ("image_id".toList, v3), ("en".toList, v4), ("tr".toList, v5),
       ("de".toList, v6), ("fr".toList, v7)])
      = some
      [("KEY".toList, v0), ("LEVEL_ID".toList, v1), ("Text_ID".toList, v2),
       ("image_id".toList, v3), ("en".toList, v4), ("tr".toList, v5),
       ("de".toList, v6), ("fr".toList, v7)] := by
  have hparts : lineCore
      [("KEY".toList, v0), ("LEVEL_ID".toList, v1), ("Text_ID".toList, v2),
       ("image_id".toList, v3), ("en".toList, v4), ("tr".toList, v5),
       ("de".toList, v6), ("fr".toList, v7)]
      = joinSep [';'] [v0, v1, v2, v3, v4, v5, v6, v7] := by
    show joinSep (";".toList) _ = _
    rw [lineCore_parts]
    rfl
  have hsplit : splitOnChar ';' (joinSep [';'] [v0, v1, v2, v3, v4, v5, v6, v7])
      = [v0, v1, v2, v3, v4, v5, v6, v7] := by
    refine splitOnChar_joinSep ';' _ (by simp) ?_
    intro p hp
    simp only [List.mem_cons, List.not_mem_nil, or_false] at hp
    rcases hp with rfl | rfl | rfl | rfl | rfl | rfl | rfl | rfl
    exacts [g0.1, g1.1, g2.1, g3.1, g4.1, g5.1, g6.1, g7.1]
  have hblank : pyStrip (joinSep [';'] [v0, v1, v2, v3, v4, v5, v6, v7]) ≠ [] := by
    refine pyStrip_ne_nil _ ';' ?_ (by decide)
    exact mem_joinSep_sep ';' _ (by simp)
  rw [hparts, decodeLine, if_neg hblank]
  simp only [hsplit]
  rw [if_pos (by simp [HEADERS])]
  rfl

theorem decodeLine_lineCore (r : Row) (h : goodRow r) :
    decodeLine (lineCore r) = some r := by
  obtain ⟨v0, v1, v2, v3, v4, v5, v6, v7, hr, g0, g1, g2, g3, g4, g5, g6, g7⟩ :=
    goodRow_shape r h
  subst hr
  exact decodeLine_lineCore_shape v0 v1 v2 v3 v4 v5 v6 v7 g0 g1 g2 g3 g4 g5 g6 g7

theorem filterMap_decode_map (rows : List Row) (h : ∀ r ∈ rows, goodRow r) :
    (rows.map lineCore).filterMap decodeLine = rows := by
  induction rows with
  | nil => rfl
  | cons r rs ih =>
    simp only [List.map_cons, List.filterMap_cons,
      decodeLine_lineCore r (h r (List.mem_cons_self r rs))]
    rw [ih (fun x hx => h x (List.mem_cons_of_mem r hx))]

theorem decode_encode (rows : List Row) (h : ∀ r ∈ rows, goodRow r) :
    read_semicolon_csv (write_semicolon_csv rows HEADERS) = (HEADERS, rows) := by
  have h2 : stripBOM (write_semicolon_csv rows HEADERS)
      = (joinSep (";".toList) HEADERS ++ "\n".toList) ++
          (rows.map (rowLine HEADERS)).flatten := by
    rw [write_eq]
    rfl
  have h3 : rows.map (rowLine HEADERS) = (rows.map lineCore).map (fun l => l ++ ['\n']) := by
    rw [List.map_map]
    rfl
  have hassoc : ∀ X : Str, (joinSep (";".toList) HEADERS ++ "\n".toList) ++ X
      = joinSep (";".toList) HEADERS ++ '\n' :: X := by
    intro X
    simp
  have hnoNL : ∀ l ∈ rows.map lineCore, '\n' ∉ l := by
    intro l hl
    obtain ⟨r, hr, rfl⟩ := List.mem_map.1 hl
    exact lineCore_noNL r (h r hr)
  have h4 : splitOnChar '\n' (stripBOM (write_semicolon_csv rows HEADERS))
      = joinSep (";".toList) HEADERS :: (rows.map lineCore ++ [[]]) := by
    rw [h2, h3, hassoc, splitOnChar_append_sep '\n' _ _ (by decide),
      splitOnChar_flatten_lines '\n' (rows.map lineCore) hnoNL]
  have h5 : (read_semicolon_csv (write_semicolon_csv rows HEADERS)).2 = rows := by
    rw [read_rows_eq, h4]
    simp only [List.drop_succ_cons, List.drop_zero, List.filterMap_append]
    rw [filterMap_decode_map rows h]
    simp [decodeLine, pyStrip]
  have h6 : (read_semicolon_csv (write_semicolon_csv rows HEADERS)).1 = HEADERS := rfl
  rw [Prod.ext_iff]
  exact ⟨h6, h5⟩

/-- C3: for a row set in which each row has exactly the 8 fixed fields and no
field value contains a semicolon or a line break,
`Encode(Decode(Encode(rows)))` equals `Encode(rows)` with header and field
order preserved, where `Encode` is `write_semicolon_csv` and `Decode` is
`read_semicolon_csv` (indeed `Decode(Encode(rows))` is `(HEADERS, rows)`
itself). -/
theorem c3_roundtrip (rows : List Row) (h : ∀ r ∈ rows, goodRow r) :
    read_semicolon_csv (write_semicolon_csv rows HEADERS) = (HEADERS, rows)
    ∧ write_semicolon_csv (read_semicolon_csv (write_semicolon_csv rows HEADERS)).2 HEADERS
      = write_semicolon_csv rows HEADERS := by
  refine ⟨decode_encode rows h, ?_⟩
  rw [decode_encode rows h]

/-- Witness for C3 at a concrete two-row table. -/
theorem c3_roundtrip_witness :
    write_semicolon_csv (read_semicolon_csv (write_semicolon_csv demoRows HEADERS)).2 HEADERS
      = write_semicolon_csv demoRows HEADERS :=
  (c3_roundtrip demoRows (by decide)).2

/-! ## Decode line behavior -/

theorem decodeLine_short (line : Str)
    (h : (splitOnChar ';' line).length < HEADERS.length) : decodeLine line = none := by
  by_cases h1 : pyStrip line = []
  · simp [decodeLine, h1]
  · simp [decodeLine, h1, Nat.not_le.2 h]

theorem decodeLine_long (line : Str)
    (h : HEADERS.length ≤ (splitOnChar ';' line).length) :
    decodeLine line = some (buildRow (splitOnChar ';' line)) := by
  have hsep : ';' ∈ line := by
    refine mem_of_splitOnChar_length_ge_two ';' line ?_
    have : HEADERS.length = 8 := by decide
    omega
  have h1 : pyStrip line ≠ [] := pyStrip_ne_nil line ';' hsep (by decide)
  simp [decodeLine, h1, h]

theorem buildRow_keys (values : List Str) : (buildRow values).map Prod.fst = HEADERS := rfl

theorem buildRow_zip (values : List Str) (h : HEADERS.length ≤ values.length) :
    buildRow values = HEADERS.zip values := by
  rcases values with _ | ⟨w0, values⟩
  · simp [HEADERS] at h
  rcases values with _ | ⟨w1, values⟩
  · simp [HEADERS] at h
  rcases values with _ | ⟨w2, values⟩
  · simp [HEADERS] at h
  rcases values with _ | ⟨w3, values⟩
  · simp [HEADERS] at h
  rcases values with _ | ⟨w4, values⟩
  · simp [HEADERS] at h
  rcases values with _ | ⟨w5, values⟩
  · simp [HEADERS] at h
  rcases values with _ | ⟨w6, values⟩
  · simp [HEADERS] at h
  rcases values with _ | ⟨w7, values⟩
  · simp [HEADERS] at h
  rfl

/-- C4: `read_semicolon_csv` is a total function (it raises no error); its
row set is exactly the per-line `decodeLine` results of the lines after the
header; a line with fewer `;`-separated fields than the 8-name fixed header
list yields no row; a line with at least 8 fields yields the row zipping
the fixed headers with its values, so the row has exactly the 8
fixed-header keys and extra fields are dropped. -/
theorem c4_short_lines_dropped :
    (∀ content : Str,
      (read_semicolon_csv content).2
        = ((splitOnChar '\n' (stripBOM content)).drop 1).filterMap decodeLine)
    ∧ (∀ line : Str, (splitOnChar ';' line).length < HEADERS.length →
        decodeLine line = none)
    ∧ (∀ line : Str, HEADERS.length ≤ (splitOnChar ';' line).length →
        decodeLine line = some (buildRow (splitOnChar ';' line)))
    ∧ (∀ values : List Str, (buildRow values).map Prod.fst = HEADERS)
    ∧ (∀ values : List Str, HEADERS.length ≤ values.length →
        buildRow values = HEADERS.zip values) :=
  ⟨read_rows_eq, decodeLine_short, decodeLine_long, buildRow_keys, buildRow_zip⟩

/-- Witness for C4: a 5-field line decodes to no row; a 9-field line decodes
to the zip of the fixed headers with its first 8 values. -/
theorem c4_short_lines_dropped_witness :
    decodeLine ("A;B;C;D;E".toList) = none
    ∧ decodeLine ("a;b;c;d;e;f;g;h;i".toList)
        = some (buildRow (splitOnChar ';' ("a;b;c;d;e;f;g;h;i".toList)))
    ∧ buildRow (splitOnChar ';' ("a;b;c;d;e;f;g;h;i".toList))
        = HEADERS.zip (splitOnChar ';' ("a;b;c;d;e;f;g;h;i".toList)) :=
  ⟨c4_short_lines_dropped.2.1 _ (by decide),
   c4_short_lines_dropped.2.2.1 _ (by decide),
   c4_short_lines_dropped.2.2.2.2 _ (by decide)⟩

/-- Counterexample to C5: C5 claims a source line with fewer than 8
`;`-separated values decodes to a Row whose missing trailing fields are
empty strings. On the code, such a line yields NO row at all: a table whose
only data line has 5 fields decodes to the empty row set. -/
theorem c5_counterexample :
    (read_semicolon_csv
      ("KEY;LEVEL_ID;Text_ID;image_id;en;tr;de;fr\nA;B;C;D;E".toList)).2 = [] := by
  decide

/-- C5 amended: a source line with fewer than 8 `;`-separated values yields
no Row (it is silently dropped by the `len(values) >= len(headers)` guard);
the `values[i] if i < len(values) else ""` padding in the row constructor
is unreachable, because rows are only built from lines with at least 8
values. -/
theorem c5_amended (line : Str) (hn : '\n' ∉ line)
    (hshort : (splitOnChar ';' line).length < HEADERS.length) :
    (read_semicolon_csv ("KEY".toList ++ '\n' :: line)).2 = [] := by
  rw [read_rows_eq]
  have hb : stripBOM ("KEY".toList ++ '\n' :: line) = "KEY".toList ++ '\n' :: line := rfl
  rw [hb, splitOnChar_append_sep '\n' _ _ (by decide),
    splitOnChar_of_not_mem '\n' line hn]
  simp [decodeLine_short line hshort]

/-- Witness for C5's amended statement at a concrete 5-field line. -/
theorem c5_amended_witness :
    (read_semicolon_csv ("KEY".toList ++ '\n' :: "A;B;C;D;E".toList)).2 = [] :=
  c5_amended ("A;B;C;D;E".toList) (by decide) (by decide)

/-! ## Locator lemmas -/

theorem begins_iff (p : Str) : ∀ s : Str, begins p s = true ↔ ∃ t, s = p ++ t := by
  induction p with
  | nil =>
    intro s
    simp [begins]
  | cons a p' ih =>
    intro s
    cases s with
    | nil =>
      simp [begins]
    | cons b s' =>
      by_cases hab : a = b
      · subst hab
        rw [show begins (a :: p') (a :: s') = begins p' s' by simp [begins], ih s']
        constructor
        · rintro ⟨t, rfl⟩
          exact ⟨t, rfl⟩
        · rintro ⟨t, ht⟩
          injection ht with h1 h2
          exact ⟨t, h2⟩
      · rw [show begins (a :: p') (b :: s') = false by simp [begins, hab]]
        constructor
        · intro h
          cases h
        · rintro ⟨t, ht⟩
          injection ht with h1 h2
          exact absurd h1.symm hab

theorem matchIdDotExt_iff (iid fn : Str) :
    matchIdDotExt iid fn = true
      ↔ ∃ ext, fn = iid ++ '.' :: ext ∧ ext ≠ [] ∧ ext.all isWordChar = true := by
  unfold matchIdDotExt
  rw [Bool.and_eq_true, begins_iff]
  constructor
  · rintro ⟨⟨t, rfl⟩, hm⟩
    rw [List.drop_left] at hm
    cases t with
    | nil => simp at hm
    | cons c t' =>
      by_cases hc : c = '.'
      · subst hc
        rw [show (match ('.' :: t' : Str) with
            | c :: ext => if c = '.' then !ext.isEmpty && ext.all isWordChar else false
            | [] => false)
            = if ('.' : Char) = '.' then !t'.isEmpty && t'.all isWordChar else false
          from rfl, if_pos rfl] at hm
        cases t' with
        | nil => simp at hm
        | cons x xs =>
          refine ⟨x :: xs, rfl, by simp, by simpa using hm⟩
      · rw [show (match (c :: t' : Str) with
            | c :: ext => if c = '.' then !ext.isEmpty && ext.all isWordChar else false
            | [] => false)
            = if c = '.' then !t'.isEmpty && t'.all isWordChar else false
          from rfl, if_neg hc] at hm
        cases hm
  · rintro ⟨ext, rfl, hne, hall⟩
    refine ⟨⟨'.' :: ext, rfl⟩, ?_⟩
    rw [List.drop_left]
    rw [show (match ('.' :: ext : Str) with
        | c :: ext => if c = '.' then !ext.isEmpty && ext.all isWordChar else false
        | [] => false)
        = if ('.' : Char) = '.' then !ext.isEmpty && ext.all isWordChar else false
      from rfl, if_pos rfl]
    cases ext with
    | nil => exact absurd rfl hne
    | cons x xs => simpa using hall

theorem primaryMatch_iff (iid : Str) : ∀ fn : Str,
    primaryMatch iid fn = true
      ↔ ∃ k ext, fn = List.replicate k '0' ++ iid ++ '.' :: ext
          ∧ ext ≠ [] ∧ ext.all isWordChar = true := by
  intro fn
  induction fn with
  | nil =>
    rw [show primaryMatch iid [] = matchIdDotExt iid [] from rfl, matchIdDotExt_iff]
    constructor
    · rintro ⟨ext, hx, _⟩
      exact absurd hx (by simp)
    · rintro ⟨k, ext, hx, _⟩
      exact absurd hx (by simp)
  | cons c rest ih =>
    rw [show primaryMatch iid (c :: rest)
        = (matchIdDotExt iid (c :: rest) || (if c = '0' then primaryMatch iid rest else false))
      from rfl, Bool.or_eq_true, matchIdDotExt_iff]
    constructor
    · rintro (⟨ext, hx, hne, hall⟩ | hr)
      · exact ⟨0, ext, by simpa using hx, hne, hall⟩
      · by_cases hc : c = '0'
        · subst hc
          rw [if_pos rfl] at hr
          obtain ⟨k, ext, hx, hne, hall⟩ := ih.1 hr
          exact ⟨k + 1, ext, by simp [List.replicate_succ, hx], hne, hall⟩
        · rw [if_neg hc] at hr
          cases hr
    · rintro ⟨k, ext, hx, hne, hall⟩
      cases k with
      | zero =>
        exact Or.inl ⟨ext, by simpa using hx, hne, hall⟩
      | succ k' =>
        right
        simp only [List.replicate_succ, List.cons_append] at hx
        injection hx with h1 h2
        subst h1
        rw [if_pos rfl]
        exact (ih.2 ⟨k', ext, h2, hne, hall⟩)

theorem matchIdNonDigit_iff (iid fn : Str) :
    matchIdNonDigit iid fn = true
      ↔ ∃ c post, fn = iid ++ c :: post ∧ c.isDigit = false := by
  unfold matchIdNonDigit
  rw [Bool.and_eq_true, begins_iff]
  constructor
  · rintro ⟨⟨t, rfl⟩, hm⟩
    rw [List.drop_left] at hm
    cases t with
    | nil => simp at hm
    | cons c post =>
      exact ⟨c, post, rfl, by simpa using hm⟩
  · rintro ⟨c, post, rfl, hc⟩
    refine ⟨⟨c :: post, rfl⟩, ?_⟩
    rw [List.drop_left]
    show (!c.isDigit) = true
    rw [hc]
    rfl

theorem fallbackMatch_iff (iid : Str) : ∀ fn : Str,
    fallbackMatch iid fn = true
      ↔ ∃ pre c post, fn = pre ++ iid ++ c :: post ∧ c.isDigit = false ∧ '\n' ∉ pre := by
  intro fn
  induction fn with
  | nil =>
    rw [show fallbackMatch iid [] = matchIdNonDigit iid [] from rfl, matchIdNonDigit_iff]
    constructor
    · rintro ⟨c, post, hx, _⟩
      exact absurd hx (by simp)
    · rintro ⟨pre, c, post, hx, _, _⟩
      exact absurd hx (by simp)
  | cons a rest ih =>
    rw [show fallbackMatch iid (a :: rest)
        = (matchIdNonDigit iid (a :: rest)
            || (if a = '\n' then false else fallbackMatch iid rest))
      from rfl, Bool.or_eq_true, matchIdNonDigit_iff]
    constructor
    · rintro (⟨c, post, hx, hc⟩ | hr)
      · exact ⟨[], c, post, by simpa using hx, hc, by simp⟩
      · by_cases ha : a = '\n'
        · rw [if_pos ha] at hr
          cases hr
        · rw [if_neg ha] at hr
          obtain ⟨pre, c, post, hx, hc, hpre⟩ := ih.1 hr
          refine ⟨a :: pre, c, post, by simp [hx], hc, ?_⟩
          intro hmem
          rcases List.mem_cons.1 hmem with h1 | h1
          · exact ha h1.symm
          · exact hpre h1
    · rintro ⟨pre, c, post, hx, hc, hpre⟩
      cases pre with
      | nil =>
        exact Or.inl ⟨c, post, by simpa using hx, hc⟩
      | cons b pre' =>
        right
        simp only [List.cons_append] at hx
        injection hx with h1 h2
        subst h1
        have ha : ¬a = '\n' := fun hh => hpre (hh ▸ List.mem_cons_self a pre')
        rw [if_neg ha]
        exact ih.2 ⟨pre', c, post, h2, hc, fun hm => hpre (List.mem_cons_of_mem a hm)⟩

theorem gip_primary (d : Str) (listing : List Str) (id fn : Str)
    (hid : id ≠ []) (hs : pyStrip id ≠ []) (hfn : fn ∈ listing)
    (hp : primaryMatch (pyStrip id) fn = true) :
    ∃ fn', primaryMatch (pyStrip id) fn' = true
      ∧ get_image_path d listing id = some (pathJoin d fn') := by
  have hsome : (listing.find? (fun f => primaryMatch (pyStrip id) f)).isSome := by
    rw [List.find?_isSome]
    exact ⟨fn, hfn, hp⟩
  obtain ⟨fn', hfind⟩ := Option.isSome_iff_exists.1 hsome
  refine ⟨fn', List.find?_some hfind, ?_⟩
  unfold get_image_path
  rw [if_neg hid, if_neg hs, hfind]

theorem gip_fallback (d : Str) (listing : List Str) (id : Str)
    (hid : id ≠ []) (hs : pyStrip id ≠ [])
    (hnone : listing.find? (fun f => primaryMatch (pyStrip id) f) = none) :
    get_image_path d listing id
      = (listing.find? (fun f => fallbackMatch (pyStrip id) f)).map (pathJoin d) := by
  unfold get_image_path
  rw [if_neg hid, if_neg hs, hnone]
  cases hf : listing.find? (fun f => fallbackMatch (pyStrip id) f) <;> rfl

/-- C7: on a directory listing exactly `01.png`, `2.jpg`, `15_bg.png`,
`get_image_path` resolves id `"1"` to `01.png`, id `"2"` to `2.jpg`, and id
`"99"` to not-found (`none`). In general: the primary pass matches exactly
the filenames of the form `0*<id>.<ext>` (word-character extension); the
fallback pass matches exactly the filenames containing the id immediately
followed by a non-digit character (for newline-free names, `.` in the
pattern not crossing a line break); if any listed file matches the primary
pattern the result is the first primary match, and the fallback pass is
consulted only when the primary pass matches nothing. -/
theorem c7_locator :
    (∀ d : Str,
      get_image_path d ["01.png".toList, "2.jpg".toList, "15_bg.png".toList] ("1".toList)
        = some (pathJoin d ("01.png".toList))
      ∧ get_image_path d ["01.png".toList, "2.jpg".toList, "15_bg.png".toList] ("2".toList)
        = some (pathJoin d ("2.jpg".toList))
      ∧ get_image_path d ["01.png".toList, "2.jpg".toList, "15_bg.png".toList] ("99".toList)
        = none)
    ∧ (∀ iid fn : Str, primaryMatch iid fn = true
        ↔ ∃ k ext, fn = List.replicate k '0' ++ iid ++ '.' :: ext
            ∧ ext ≠ [] ∧ ext.all isWordChar = true)
    ∧ (∀ iid fn : Str, '\n' ∉ fn →
        (fallbackMatch iid fn = true
          ↔ ∃ pre c post, fn = pre ++ iid ++ c :: post ∧ c.isDigit = false))
    ∧ (∀ (d : Str) (listing : List Str) (id fn : Str), id ≠ [] → pyStrip id ≠ [] →
        fn ∈ listing → primaryMatch (pyStrip id) fn = true →
        ∃ fn', primaryMatch (pyStrip id) fn' = true
          ∧ get_image_path d listing id = some (pathJoin d fn'))
    ∧ (∀ (d : Str) (listing : List Str) (id : Str), id ≠ [] → pyStrip id ≠ [] →
        listing.find? (fun f => primaryMatch (pyStrip id) f) = none →
        get_image_path d listing id
          = (listing.find? (fun f => fallbackMatch (pyStrip id) f)).map (pathJoin d)) := by
  refine ⟨fun d => ⟨rfl, rfl, rfl⟩, primaryMatch_iff, ?_, gip_primary, gip_fallback⟩
  intro iid fn hn
  rw [fallbackMatch_iff]
  constructor
  · rintro ⟨pre, c, post, hx, hc, _⟩
    exact ⟨pre, c, post, hx, hc⟩
  · rintro ⟨pre, c, post, rfl, hc⟩
    refine ⟨pre, c, post, rfl, hc, ?_⟩
    intro hmem
    exact hn (List.mem_append.2 (Or.inl (List.mem_append.2 (Or.inl hmem))))

/-- Witness for C7: the concrete directory lookups, plus a fallback-only
lookup where no primary pattern matches. -/
theorem c7_locator_witness :
    get_image_path ("imgs".toList) ["01.png".toList, "2.jpg".toList, "15_bg.png".toList]
      ("1".toList) = some (pathJoin ("imgs".toList) ("01.png".toList))
    ∧ (fallbackMatch ("1".toList) ("x1_a.png".toList) = true
        ↔ ∃ pre c post, ("x1_a.png".toList : Str) = pre ++ "1".toList ++ c :: post
            ∧ c.isDigit = false)
    ∧ get_image_path ("imgs".toList) ["x1_a.png".toList] ("1".toList)
        = ((["x1_a.png".toList]).find?
            (fun f => fallbackMatch (pyStrip ("1".toList)) f)).map
              (pathJoin ("imgs".toList)) :=
  ⟨(c7_locator.1 ("imgs".toList)).1,
   c7_locator.2.2.1 ("1".toList) ("x1_a.png".toList) (by decide),
   c7_locator.2.2.2.2 ("imgs".toList) ["x1_a.png".toList] ("1".toList)
     (by decide) (by decide) (by decide)⟩

/-! ## Localization fill lemmas -/

theorem dget_stepFill_self (e lang : Str) (acc : Dict) :
    (dget (stepFill e acc lang) lang).isSome = true := by
  cases hd : dget acc lang with
  | some v => simp [stepFill, hd]
  | none => simp [stepFill, hd, dget_dictInsert]

theorem dget_stepFill_some (e lang l : Str) (acc : Dict) (v : Str)
    (hv : dget acc l = some v) : dget (stepFill e acc lang) l = some v := by
  by_cases hl : l = lang
  · subst hl
    simp [stepFill, hv]
  · cases hd : dget acc lang with
    | some u => simp [stepFill, hd, hv]
    | none => simp [stepFill, hd, dget_dictInsert, hl, hv]

theorem dget_stepFill_other (e lang l : Str) (acc : Dict) (hl : l ≠ lang) :
    dget (stepFill e acc lang) l = dget acc l := by
  cases hd : dget acc lang with
  | some u => simp [stepFill, hd]
  | none => simp [stepFill, hd, dget_dictInsert, hl]

theorem dget_stepFill_insert (e lang : Str) (acc : Dict)
    (hmiss : dget acc lang = none) :
    dget (stepFill e acc lang) lang
      = some ("[ERROR: Missing ".toList ++ lang ++ " translation] ".toList ++ e) := by
  simp [stepFill, hmiss, dget_dictInsert]

theorem isSome_stepFill (e lang l : Str) (acc : Dict)
    (h : (dget acc l).isSome = true) : (dget (stepFill e acc lang) l).isSome = true := by
  obtain ⟨v, hv⟩ := Option.isSome_iff_exists.1 h
  rw [dget_stepFill_some e lang l acc v hv]
  rfl

theorem fillMissing_eq (loc : Dict) (e : Str) :
    fillMissing loc e
      = stepFill e
          (stepFill e (stepFill e loc ("turkish".toList)) ("french".toList))
          ("german".toList) := by
  rfl

theorem fillMissing_has (loc : Dict) (e : Str) :
    (dget (fillMissing loc e) ("turkish".toList)).isSome = true
    ∧ (dget (fillMissing loc e) ("french".toList)).isSome = true
    ∧ (dget (fillMissing loc e) ("german".toList)).isSome = true := by
  rw [fillMissing_eq]
  refine ⟨?_, ?_, ?_⟩
  · exact isSome_stepFill _ _ _ _ (isSome_stepFill _ _ _ _ (dget_stepFill_self _ _ _))
  · exact isSome_stepFill _ _ _ _ (dget_stepFill_self _ _ _)
  · exact dget_stepFill_self _ _ _

theorem fillMissing_missing (loc : Dict) (e lang : Str)
    (hmem : lang ∈ [("turkish".toList : Str), "french".toList, "german".toList])
    (hmiss : dget loc lang = none) :
    dget (fillMissing loc e) lang
      = some ("[ERROR: Missing ".toList ++ lang ++ " translation] ".toList ++ e) := by
  rw [fillMissing_eq]
  simp only [List.mem_cons, List.not_mem_nil, or_false] at hmem
  rcases hmem with rfl | rfl | rfl
  · rw [dget_stepFill_other _ _ _ _ (by decide), dget_stepFill_other _ _ _ _ (by decide),
      dget_stepFill_insert _ _ _ hmiss]
  · rw [dget_stepFill_other _ _ _ _ (by decide),
      dget_stepFill_insert _ _ _ (by rw [dget_stepFill_other _ _ _ _ (by decide)]; exact hmiss)]
  · rw [dget_stepFill_insert]
    rw [dget_stepFill_other _ _ _ _ (by decide), dget_stepFill_other _ _ _ _ (by decide)]
    exact hmiss

/-! ## process_localization branch equations -/

theorem process_localization_debug (w : World) (d e mid mname : Str) :
    process_localization w d e mid mname true
      = [("localization".toList,
          [("turkish".toList, "[TR] ".toList ++ e),
           ("french".toList, "[FR] ".toList ++ e),
           ("german".toList, "[DE] ".toList ++ e)])] := rfl

theorem process_localization_raised (w : World) (d e mid mname r : Str)
    (hcall : w.locCall mname d e = .raised r) :
    process_localization w d e mid mname false = errPlaceholder r e := by
  simp only [process_localization, Bool.false_eq_true, if_false, hcall]

theorem process_localization_badJson (w : World) (d e mid mname : Str)
    (hcall : w.locCall mname d e = .badJson) :
    process_localization w d e mid mname false
      = errPlaceholder ("Invalid JSON".toList) e := by
  simp only [process_localization, Bool.false_eq_true, if_false, hcall]

theorem process_localization_noContainer (w : World) (d e mid mname : Str)
    (top : List (Str × Dict)) (hcall : w.locCall mname d e = .parsed top)
    (hnone : dget top ("localization".toList) = none) :
    process_localization w d e mid mname false
      = errPlaceholder ("Missing localization data".toList) e := by
  simp only [process_localization, Bool.false_eq_true, if_false, hcall, hnone]

theorem process_localization_parsed (w : World) (d e mid mname : Str)
    (top : List (Str × Dict)) (loc : Dict) (hcall : w.locCall mname d e = .parsed top)
    (hloc : dget top ("localization".toList) = some loc) :
    process_localization w d e mid mname false
      = dictInsert ("localization".toList) (fillMissing loc e) top := by
  simp only [process_localization, Bool.false_eq_true, if_false, hcall, hloc]

theorem locOf_errPlaceholder (r e : Str) :
    locOf (errPlaceholder r e)
      = [("turkish".toList, "[ERROR: ".toList ++ r ++ "] ".toList ++ e),
         ("french".toList, "[ERROR: ".toList ++ r ++ "] ".toList ++ e),
         ("german".toList, "[ERROR: ".toList ++ r ++ "] ".toList ++ e)] := rfl

theorem locOf_dictInsert (L : Dict) (top : List (Str × Dict)) :
    locOf (dictInsert ("localization".toList) L top) = L := by
  unfold locOf
  rw [dget_dictInsert]
  simp

/-- C1: for every invocation of `process_localization` — whatever the
provider call does (well-formed reply, reply missing one or more language
keys, reply lacking the top-level `localization` container, unparseable
reply, or a raised call) — the returned result's `localization` map has
all three language keys (`turkish`, `french`, `german`) bound to text; the
error cases fill the affected keys with `"[ERROR: <reason>] "` followed by
the original source text. -/
theorem c1_localization_total (w : World) (d e mid mname : Str) (debug : Bool) :
    ((dget (locOf (process_localization w d e mid mname debug)) ("turkish".toList)).isSome
        = true
      ∧ (dget (locOf (process_localization w d e mid mname debug)) ("french".toList)).isSome
        = true
      ∧ (dget (locOf (process_localization w d e mid mname debug)) ("german".toList)).isSome
        = true)
    ∧ (∀ r, w.locCall mname d e = .raised r → debug = false →
        process_localization w d e mid mname debug = errPlaceholder r e)
    ∧ (w.locCall mname d e = .badJson → debug = false →
        process_localization w d e mid mname debug
          = errPlaceholder ("Invalid JSON".toList) e)
    ∧ (∀ top, w.locCall mname d e = .parsed top → debug = false →
        dget top ("localization".toList) = none →
        process_localization w d e mid mname debug
          = errPlaceholder ("Missing localization data".toList) e)
    ∧ (∀ top loc lang, w.locCall mname d e = .parsed top → debug = false →
        dget top ("localization".toList) = some loc →
        lang ∈ [("turkish".toList : Str), "french".toList, "german".toList] →
        dget loc lang = none →
        dget (locOf (process_localization w d e mid mname debug)) lang
          = some ("[ERROR: Missing ".toList ++ lang ++ " translation] ".toList ++ e)) := by
  cases debug with
  | true =>
    refine ⟨⟨rfl, rfl, rfl⟩, ?_, ?_, ?_, ?_⟩
    · intro r _ hd
      cases hd
    · intro _ hd
      cases hd
    · intro top _ hd
      cases hd
    · intro top loc lang _ hd
      cases hd
  | false =>
    cases hcall : w.locCall mname d e with
    | raised r =>
      rw [process_localization_raised w d e mid mname r hcall]
      refine ⟨⟨?_, ?_, ?_⟩, ?_, ?_, ?_, ?_⟩
      · rw [locOf_errPlaceholder]
        rfl
      · rw [locOf_errPlaceholder]
        rfl
      · rw [locOf_errPlaceholder]
        rfl
      · intro r' hr _
        injection hr with h1
        subst h1
        rfl
      · intro hr
        cases hr
      · intro top hr
        cases hr
      · intro top loc lang hr
        cases hr
    | badJson =>
      rw [process_localization_badJson w d e mid mname hcall]
      refine ⟨⟨?_, ?_, ?_⟩, ?_, ?_, ?_, ?_⟩
      · rw [locOf_errPlaceholder]
        rfl
      · rw [locOf_errPlaceholder]
        rfl
      · rw [locOf_errPlaceholder]
        rfl
      · intro r' hr _
        cases hr
      · intro _ _
        rfl
      · intro top hr
        cases hr
      · intro top loc lang hr
        cases hr
    | parsed top =>
      cases hloc : dget top ("localization".toList) with
      | none =>
        rw [process_localization_noContainer w d e mid mname top hcall hloc]
        refine ⟨⟨?_, ?_, ?_⟩, ?_, ?_, ?_, ?_⟩
        · rw [locOf_errPlaceholder]
          rfl
        · rw [locOf_errPlaceholder]
          rfl
        · rw [locOf_errPlaceholder]
          rfl
        · intro r' hr _
          cases hr
        · intro hr
          cases hr
        · intro top' hr _ _
          rfl
        · intro top' loc lang hr _ hl
          injection hr with h1
          subst h1
          rw [hloc] at hl
          cases hl
      | some loc =>
        rw [process_localization_parsed w d e mid mname top loc hcall hloc]
        rw [locOf_dictInsert]
        refine ⟨fillMissing_has loc e, ?_, ?_, ?_, ?_⟩
        · intro r' hr _
          cases hr
        · intro hr
          cases hr
        · intro top' hr _ hl
          injection hr with h1
          subst h1
          rw [hloc] at hl
          cases hl
        · intro top' loc' lang hr _ hl hmem hmiss
          injection hr with h1
          subst h1
          rw [hloc] at hl
          injection hl with h2
          subst h2
          exact fillMissing_missing loc e lang hmem hmiss

/-- Witness for C1: a concrete provider whose call raises yields the full
error placeholder, and a concrete reply missing `french` gets exactly that
key synthesized. -/
theorem c1_localization_total_witness :
    process_localization
        ⟨fun _ => Except.ok ("b".toList), fun _ => Except.ok ("resp".toList),
         fun _ _ _ => ProviderOutcome.raised ("boom".toList)⟩
        ("desc".toList) ("hi".toList) ("m1".toList) ("n1".toList) false
      = errPlaceholder ("boom".toList) ("hi".toList)
    ∧ dget
        (locOf (process_localization
          ⟨fun _ => Except.ok ("b".toList), fun _ => Except.ok ("resp".toList),
           fun _ _ _ => ProviderOutcome.parsed
             [("localization".toList, [("turkish".toList, "T".toList),
               ("german".toList, "G".toList)])]⟩
          ("desc".toList) ("hi".toList) ("m1".toList) ("n1".toList) false))
        ("french".toList)
      = some ("[ERROR: Missing ".toList ++ "french".toList ++ " translation] ".toList
          ++ "hi".toList) :=
  ⟨(c1_localization_total _ ("desc".toList) ("hi".toList) ("m1".toList) ("n1".toList)
      false).2.1 ("boom".toList) rfl rfl,
   (c1_localization_total _ ("desc".toList) ("hi".toList) ("m1".toList) ("n1".toList)
      false).2.2.2.2 _ _ ("french".toList) rfl rfl rfl (by decide) rfl⟩

/-! ## Description provider behavior -/

theorem gid_normal (w : World) (p : Str) :
    get_image_description w p false
      = match encode_image w p with
        | .error e => .error e
        | .ok image_url =>
          match w.visionCall image_url with
          | .ok description => .ok description
          | .error _ => .ok errDescription := rfl

/-- Counterexample to C9: C9 claims `get_image_description` never propagates
an exception to its caller, for any image path. But `encode_image` runs
OUTSIDE the try block, so in a world where reading the image file raises
`boom`, the call returns that exception rather than the fixed error
string. -/
theorem c9_counterexample :
    get_image_description failReadWorld ("img.png".toList) false
      = Except.error ("boom".toList) := rfl

/-- C9 amended: in normal (non-debug) mode, provided the image file is read
and encoded successfully, `get_image_description` never propagates an
exception: it returns the vision reply on success, and any failure of the
API call itself is caught and converted into the fixed string
`"Error: Could not generate image description"`. (A failure inside
`encode_image`, which runs outside the try block, propagates instead.) -/
theorem c9_amended (w : World) (p b : Str) (hread : w.readImage p = Except.ok b) :
    (∀ r, w.visionCall ("data:image/png;base64,".toList ++ b) = Except.ok r →
        get_image_description w p false = Except.ok r)
    ∧ (∀ er, w.visionCall ("data:image/png;base64,".toList ++ b) = Except.error er →
        get_image_description w p false = Except.ok errDescription)
    ∧ ∃ s, get_image_description w p false = Except.ok s := by
  have henc : encode_image w p = Except.ok ("data:image/png;base64,".toList ++ b) := by
    unfold encode_image
    rw [hread]
  have hred : get_image_description w p false
      = match w.visionCall ("data:image/png;base64,".toList ++ b) with
        | Except.ok description => Except.ok description
        | Except.error _ => Except.ok errDescription := by
    rw [gid_normal, henc]
  refine ⟨?_, ?_, ?_⟩
  · intro r hv
    rw [hred, hv]
  · intro er hv
    rw [hred, hv]
  · cases hv : w.visionCall ("data:image/png;base64,".toList ++ b) with
    | ok r => exact ⟨r, by rw [hred, hv]⟩
    | error er => exact ⟨errDescription, by rw [hred, hv]⟩

/-- Witness for C9's amended statement: with a readable file and a failing
vision call, the fixed error string is returned (no exception). -/
theorem c9_amended_witness :
    get_image_description visionFailWorld ("img.png".toList) false
      = Except.ok errDescription :=
  (c9_amended visionFailWorld ("img.png".toList) ("b64".toList) rfl).2.1
    ("net".toList) rfl

/-! ## Row processing: skip behavior -/

/-- C6: `process_row` returns the original row unchanged together with no
description, an untouched cache, and no description or localization call,
both for a row whose `image_id` or `en` is blank after trimming and for a
row whose (uncached) `image_id` cannot be resolved to a file by
`get_image_path`. -/
theorem c6_row_skips (w : World) (row : Row) (imgs_dir : Str) (listing : List Str)
    (cache : Dict) (mid mname : Str) (debug : Bool) :
    (rowField row ("image_id".toList) = [] ∨ rowField row ("en".toList) = [] →
      process_row w row imgs_dir listing cache mid mname debug
        = ⟨Except.ok (row, none), cache, [], false⟩)
    ∧ (dget cache (rowField row ("image_id".toList)) = none →
        get_image_path imgs_dir listing (rowField row ("image_id".toList)) = none →
        process_row w row imgs_dir listing cache mid mname debug
          = ⟨Except.ok (row, none), cache, [], false⟩) := by
  constructor
  · intro h
    simp only [process_row]
    rw [if_pos h]
  · intro hc hp
    by_cases hb : rowField row ("image_id".toList) = [] ∨ rowField row ("en".toList) = []
    · simp only [process_row]
      rw [if_pos hb]
    · simp only [process_row]
      rw [if_neg hb, hc, hp]

/-- Witness for C6: a concrete row with blank `en` and a concrete row whose
`image_id` matches nothing in an empty directory are both returned
unchanged with no description and no call. -/
theorem c6_row_skips_witness :
    process_row inertWorld rowBlankEn ("imgs".toList) ["7.png".toList] []
        ("m".toList) ("n".toList) false
      = ⟨Except.ok (rowBlankEn, none), [], [], false⟩
    ∧ process_row inertWorld rowNoImage ("imgs".toList) [] []
        ("m".toList) ("n".toList) false
      = ⟨Except.ok (rowNoImage, none), [], [], false⟩ :=
  ⟨(c6_row_skips inertWorld rowBlankEn ("imgs".toList) ["7.png".toList] []
      ("m".toList) ("n".toList) false).1 (by decide),
   (c6_row_skips inertWorld rowNoImage ("imgs".toList) [] []
      ("m".toList) ("n".toList) false).2 (by decide) (by decide)⟩

/-! ## process_row case lemmas -/

theorem process_row_eq (w : World) (row : Row) (dir : Str) (listing : List Str)
    (cache : Dict) (mid mname : Str) (debug : Bool) :
    process_row w row dir listing cache mid mname debug
      = if rowField row ("image_id".toList) = [] ∨ rowField row ("en".toList) = [] then
          ⟨Except.ok (row, none), cache, [], false⟩
        else
          match dget cache (rowField row ("image_id".toList)) with
          | some description =>
            ⟨Except.ok (applyLoc w row description (rowField row ("en".toList)) mid mname
                debug), cache, [], true⟩
          | none =>
            match get_image_path dir listing (rowField row ("image_id".toList)) with
            | none => ⟨Except.ok (row, none), cache, [], false⟩
            | some image_path =>
              match get_image_description w image_path debug with
              | .error e =>
                ⟨Except.error e, cache, [rowField row ("image_id".toList)], false⟩
              | .ok description =>
                ⟨Except.ok (applyLoc w row description (rowField row ("en".toList)) mid
                    mname debug),
                 dictInsert (rowField row ("image_id".toList)) description cache,
                 [rowField row ("image_id".toList)], true⟩ := rfl

theorem process_row_blank (w : World) (row : Row) (dir : Str) (listing : List Str)
    (cache : Dict) (mid mname : Str) (debug : Bool)
    (h : rowField row ("image_id".toList) = [] ∨ rowField row ("en".toList) = []) :
    process_row w row dir listing cache mid mname debug
      = ⟨Except.ok (row, none), cache, [], false⟩ := by
  rw [process_row_eq, if_pos h]

theorem process_row_cached (w : World) (row : Row) (dir : Str) (listing : List Str)
    (cache : Dict) (mid mname : Str) (debug : Bool) (dsc : Str)
    (hbi : rowField row ("image_id".toList) ≠ []) (hbe : rowField row ("en".toList) ≠ [])
    (hc : dget cache (rowField row ("image_id".toList)) = some dsc) :
    process_row w row dir listing cache mid mname debug
      = ⟨Except.ok (applyLoc w row dsc (rowField row ("en".toList)) mid mname debug),
         cache, [], true⟩ := by
  rw [process_row_eq, if_neg (by push_neg; exact ⟨hbi, hbe⟩), hc]

theorem process_row_fresh (w : World) (row : Row) (dir : Str) (listing : List Str)
    (cache : Dict) (mid mname : Str) (debug : Bool) (p dsc : Str)
    (hbi : rowField row ("image_id".toList) ≠ []) (hbe : rowField row ("en".toList) ≠ [])
    (hc : dget cache (rowField row ("image_id".toList)) = none)
    (hp : get_image_path dir listing (rowField row ("image_id".toList)) = some p)
    (hg : get_image_description w p debug = Except.ok dsc) :
    process_row w row dir listing cache mid mname debug
      = ⟨Except.ok (applyLoc w row dsc (rowField row ("en".toList)) mid mname debug),
         dictInsert (rowField row ("image_id".toList)) dsc cache,
         [rowField row ("image_id".toList)], true⟩ := by
  rw [process_row_eq, if_neg (by push_neg; exact ⟨hbi, hbe⟩), hc, hp]
  simp only []
  rw [hg]

theorem process_row_raises (w : World) (row : Row) (dir : Str) (listing : List Str)
    (cache : Dict) (mid mname : Str) (debug : Bool) (p e : Str)
    (hbi : rowField row ("image_id".toList) ≠ []) (hbe : rowField row ("en".toList) ≠ [])
    (hc : dget cache (rowField row ("image_id".toList)) = none)
    (hp : get_image_path dir listing (rowField row ("image_id".toList)) = some p)
    (hg : get_image_description w p debug = Except.error e) :
    process_row w row dir listing cache mid mname debug
      = ⟨Except.error e, cache, [rowField row ("image_id".toList)], false⟩ := by
  rw [process_row_eq, if_neg (by push_neg; exact ⟨hbi, hbe⟩), hc, hp]
  simp only []
  rw [hg]

theorem rowField_ne (row : Row) (k : Str) (h : rowField row k ≠ []) :
    ∃ s, dget row k = some s ∧ pyStrip s ≠ [] ∧ rowField row k = pyStrip s := by
  cases hd : dget row k with
  | none =>
    exfalso
    apply h
    simp [rowField, hd]
  | some s =>
    by_cases hs : s = []
    · exfalso
      apply h
      simp [rowField, hd, hs]
    · refine ⟨s, rfl, ?_, by simp [rowField, hd, hs]⟩
      intro hps
      apply h
      simp [rowField, hd, hs, hps]

theorem process_row_path_none (w : World) (row : Row) (dir : Str) (listing : List Str)
    (cache : Dict) (mid mname : Str) (debug : Bool)
    (hc : dget cache (rowField row ("image_id".toList)) = none)
    (hp : get_image_path dir listing (rowField row ("image_id".toList)) = none) :
    process_row w row dir listing cache mid mname debug
      = ⟨Except.ok (row, none), cache, [], false⟩ := by
  by_cases hb : rowField row ("image_id".toList) = [] ∨ rowField row ("en".toList) = []
  · exact process_row_blank w row dir listing cache mid mname debug hb
  · rw [process_row_eq, if_neg hb, hc, hp]

theorem process_row_mono (w : World) (row : Row) (dir : Str) (listing : List Str)
    (cache : Dict) (mid mname : Str) (debug : Bool) (k : Str) (v : Str)
    (hv : dget cache k = some v) :
    dget (process_row w row dir listing cache mid mname debug).cache k = some v := by
  by_cases hb : rowField row ("image_id".toList) = [] ∨ rowField row ("en".toList) = []
  · rw [process_row_blank w row dir listing cache mid mname debug hb]
    exact hv
  · push_neg at hb
    cases hc : dget cache (rowField row ("image_id".toList)) with
    | some dsc =>
      rw [process_row_cached w row dir listing cache mid mname debug dsc hb.1 hb.2 hc]
      exact hv
    | none =>
      cases hp : get_image_path dir listing (rowField row ("image_id".toList)) with
      | none =>
        rw [process_row_path_none w row dir listing cache mid mname debug hc hp]
        exact hv
      | some p =>
        cases hg : get_image_description w p debug with
        | error e =>
          rw [process_row_raises w row dir listing cache mid mname debug p e hb.1 hb.2 hc
            hp hg]
          exact hv
        | ok dsc =>
          rw [process_row_fresh w row dir listing cache mid mname debug p dsc hb.1 hb.2 hc
            hp hg]
          show dget (dictInsert (rowField row ("image_id".toList)) dsc cache) k = some v
          rw [dget_dictInsert]
          have hk : k ≠ rowField row ("image_id".toList) := by
            intro hkk
            rw [hkk, hc] at hv
            cases hv
          rw [if_neg hk]
          exact hv

theorem process_row_cases (w : World) (row : Row) (dir : Str) (listing : List Str)
    (cache : Dict) (mid mname : Str) (debug : Bool) :
    process_row w row dir listing cache mid mname debug
        = ⟨Except.ok (row, none), cache, [], false⟩
    ∨ (∃ dsc, dget cache (rowField row ("image_id".toList)) = some dsc
        ∧ rowField row ("image_id".toList) ≠ [] ∧ rowField row ("en".toList) ≠ []
        ∧ process_row w row dir listing cache mid mname debug
          = ⟨Except.ok (applyLoc w row dsc (rowField row ("en".toList)) mid mname debug),
             cache, [], true⟩)
    ∨ (∃ p e, dget cache (rowField row ("image_id".toList)) = none
        ∧ get_image_description w p debug = Except.error e
        ∧ process_row w row dir listing cache mid mname debug
          = ⟨Except.error e, cache, [rowField row ("image_id".toList)], false⟩)
    ∨ (∃ p dsc, dget cache (rowField row ("image_id".toList)) = none
        ∧ get_image_description w p debug = Except.ok dsc
        ∧ rowField row ("image_id".toList) ≠ [] ∧ rowField row ("en".toList) ≠ []
        ∧ process_row w row dir listing cache mid mname debug
          = ⟨Except.ok (applyLoc w row dsc (rowField row ("en".toList)) mid mname debug),
             dictInsert (rowField row ("image_id".toList)) dsc cache,
             [rowField row ("image_id".toList)], true⟩) := by
  by_cases hb : rowField row ("image_id".toList) = [] ∨ rowField row ("en".toList) = []
  · exact Or.inl (process_row_blank w row dir listing cache mid mname debug hb)
  · push_neg at hb
    cases hc : dget cache (rowField row ("image_id".toList)) with
    | some dsc =>
      exact Or.inr (Or.inl ⟨dsc, rfl, hb.1, hb.2,
        process_row_cached w row dir listing cache mid mname debug dsc hb.1 hb.2 hc⟩)
    | none =>
      cases hp : get_image_path dir listing (rowField row ("image_id".toList)) with
      | none =>
        exact Or.inl (process_row_path_none w row dir listing cache mid mname debug hc hp)
      | some p =>
        cases hg : get_image_description w p debug with
        | error e =>
          exact Or.inr (Or.inr (Or.inl ⟨p, e, rfl, hg,
            process_row_raises w row dir listing cache mid mname debug p e hb.1 hb.2 hc
              hp hg⟩))
        | ok dsc =>
          exact Or.inr (Or.inr (Or.inr ⟨p, dsc, rfl, hg, hb.1, hb.2,
            process_row_fresh w row dir listing cache mid mname debug p dsc hb.1 hb.2 hc
              hp hg⟩))

theorem process_row_keysNodup (w : World) (row : Row) (dir : Str) (listing : List Str)
    (cache : Dict) (mid mname : Str) (debug : Bool)
    (h : (cache.map Prod.fst).Nodup) :
    (((process_row w row dir listing cache mid mname debug).cache).map Prod.fst).Nodup := by
  rcases process_row_cases w row dir listing cache mid mname debug with
    heq | ⟨d, hc, hbi, hbe, heq⟩ | ⟨p, e, hc, hg, heq⟩ | ⟨p, d, hc, hg, hbi, hbe, heq⟩ <;>
    rw [heq]
  · exact h
  · exact h
  · exact h
  · exact keysNodup_dictInsert _ _ _ h

theorem process_row_cached_nocall (w : World) (row : Row) (dir : Str)
    (listing : List Str) (cache : Dict) (mid mname : Str) (debug : Bool) (id dsc : Str)
    (hid : dget cache id = some dsc) :
    id ∉ (process_row w row dir listing cache mid mname debug).descCalls
    ∧ dget (process_row w row dir listing cache mid mname debug).cache id = some dsc := by
  refine ⟨?_, process_row_mono w row dir listing cache mid mname debug id dsc hid⟩
  rcases process_row_cases w row dir listing cache mid mname debug with
    heq | ⟨d, hc, hbi, hbe, heq⟩ | ⟨p, e, hc, hg, heq⟩ | ⟨p, d, hc, hg, hbi, hbe, heq⟩ <;>
    rw [heq]
  · simp
  · simp
  · intro hmem
    rcases List.mem_singleton.1 hmem with rfl
    rw [hid] at hc
    cases hc
  · intro hmem
    rcases List.mem_singleton.1 hmem with rfl
    rw [hid] at hc
    cases hc

theorem gid_ok (w : World) (debug : Bool) (h : noDescRaise w debug) (p : Str) :
    ∃ s, get_image_description w p debug = Except.ok s := by
  rcases h with hd | hr
  · subst hd
    exact ⟨"This is a debug description for image ".toList ++ basename p, rfl⟩
  · obtain ⟨b, hb⟩ := hr p
    have henc : encode_image w p = Except.ok ("data:image/png;base64,".toList ++ b) := by
      unfold encode_image
      rw [hb]
    cases debug with
    | true => exact ⟨"This is a debug description for image ".toList ++ basename p, rfl⟩
    | false =>
      rw [gid_normal, henc]
      simp only []
      cases hv : w.visionCall ("data:image/png;base64,".toList ++ b) with
      | ok r => exact ⟨r, rfl⟩
      | error e => exact ⟨errDescription, rfl⟩

theorem process_row_calls (w : World) (row : Row) (dir : Str) (listing : List Str)
    (cache : Dict) (mid mname : Str) (debug : Bool) (h : noDescRaise w debug) :
    ((process_row w row dir listing cache mid mname debug).descCalls = []
      ∧ (process_row w row dir listing cache mid mname debug).cache = cache)
    ∨ (∃ iid dsc, (process_row w row dir listing cache mid mname debug).descCalls = [iid]
        ∧ dget cache iid = none
        ∧ (process_row w row dir listing cache mid mname debug).cache
          = dictInsert iid dsc cache) := by
  rcases process_row_cases w row dir listing cache mid mname debug with
    heq | ⟨d, hc, hbi, hbe, heq⟩ | ⟨p, e, hc, hg, heq⟩ | ⟨p, d, hc, hg, hbi, hbe, heq⟩ <;>
    rw [heq]
  · exact Or.inl ⟨rfl, rfl⟩
  · exact Or.inl ⟨rfl, rfl⟩
  · obtain ⟨s, hs⟩ := gid_ok w debug h p
    rw [hs] at hg
    cases hg
  · exact Or.inr ⟨rowField row ("image_id".toList), d, rfl, hc, rfl⟩

theorem dget_langStep_other (locs : Dict) (r : Row) (p : Str × Str) (k : Str)
    (hk : k ≠ p.2) : dget (langStep locs r p) k = dget r k := by
  cases hd : dget locs p.1 with
  | some v => simp [langStep, hd, dget_dictInsert, hk]
  | none => simp [langStep, hd]

theorem applyLangs_eq (locs : Dict) (row : Row) :
    applyLangs locs row
      = langStep locs
          (langStep locs (langStep locs row ("turkish".toList, "tr".toList))
            ("french".toList, "fr".toList))
          ("german".toList, "de".toList) := rfl

theorem dget_applyLangs_other (locs : Dict) (row : Row) (k : Str)
    (h1 : k ≠ "tr".toList) (h2 : k ≠ "fr".toList) (h3 : k ≠ "de".toList) :
    dget (applyLangs locs row) k = dget row k := by
  rw [applyLangs_eq, dget_langStep_other _ _ _ _ h3, dget_langStep_other _ _ _ _ h2,
    dget_langStep_other _ _ _ _ h1]

theorem applyLoc_eq (w : World) (row : Row) (dsc en mid mname : Str) (debug : Bool) :
    applyLoc w row dsc en mid mname debug
      = (applyLangs (locOf (process_localization w dsc en mid mname debug)) row,
         some dsc) := rfl

theorem process_row_ok_some (w : World) (row : Row) (dir : Str) (listing : List Str)
    (cache : Dict) (mid mname : Str) (debug : Bool) (urow : Row) (dsc : Str)
    (h : (process_row w row dir listing cache mid mname debug).outcome
          = Except.ok (urow, some dsc)) :
    rowField row ("image_id".toList) ≠ [] ∧ rowField row ("en".toList) ≠ []
    ∧ dget urow ("image_id".toList) = dget row ("image_id".toList)
    ∧ dget urow ("en".toList) = dget row ("en".toList) := by
  rcases process_row_cases w row dir listing cache mid mname debug with
    heq | ⟨d, hc, hbi, hbe, heq⟩ | ⟨p, e, hc, hg, heq⟩ | ⟨p, d, hc, hg, hbi, hbe, heq⟩ <;>
    rw [heq] at h
  · injection h with h1
    injection h1 with h2 h3
    cases h3
  · rw [applyLoc_eq] at h
    injection h with h1
    injection h1 with h2 h3
    subst h2
    exact ⟨hbi, hbe, dget_applyLangs_other _ _ _ (by decide) (by decide) (by decide),
      dget_applyLangs_other _ _ _ (by decide) (by decide) (by decide)⟩
  · cases h
  · rw [applyLoc_eq] at h
    injection h with h1
    injection h1 with h2 h3
    subst h2
    exact ⟨hbi, hbe, dget_applyLangs_other _ _ _ (by decide) (by decide) (by decide),
      dget_applyLangs_other _ _ _ (by decide) (by decide) (by decide)⟩

/-! ## Run loop equations -/

theorem runRows_nil (w : World) (dir : Str) (listing : List Str) (mid mname : Str)
    (debug : Bool) (cache : Dict) :
    runRows w dir listing mid mname debug [] cache = ⟨[], [], cache, []⟩ := rfl

theorem runRows_cons (w : World) (dir : Str) (listing : List Str) (mid mname : Str)
    (debug : Bool) (row : Row) (rest : List Row) (cache : Dict) :
    runRows w dir listing mid mname debug (row :: rest) cache
      = ⟨(keptOf row (process_row w row dir listing cache mid mname debug).outcome).1
           :: (runRows w dir listing mid mname debug rest
                (process_row w row dir listing cache mid mname debug).cache).rows,
         (keptOf row (process_row w row dir listing cache mid mname debug).outcome).2
           ++ (runRows w dir listing mid mname debug rest
                (process_row w row dir listing cache mid mname debug).cache).records,
         (runRows w dir listing mid mname debug rest
           (process_row w row dir listing cache mid mname debug).cache).cache,
         (process_row w row dir listing cache mid mname debug).descCalls
           ++ (runRows w dir listing mid mname debug rest
                (process_row w row dir listing cache mid mname debug).cache).descCalls⟩ :=
  rfl

theorem runModels_nil (w : World) (dir : Str) (listing : List Str) (debug : Bool)
    (rows : List Row) (cache : Dict) :
    runModels w dir listing debug rows [] cache = ⟨[], cache, []⟩ := rfl

theorem runModels_cons (w : World) (dir : Str) (listing : List Str) (debug : Bool)
    (rows : List Row) (mid mname : Str) (ms : List (Str × Str)) (cache : Dict) :
    runModels w dir listing debug rows ((mid, mname) :: ms) cache
      = ⟨⟨mid, (runRows w dir listing mid mname debug rows cache).rows,
          write_semicolon_csv (runRows w dir listing mid mname debug rows cache).rows
            HEADERS,
          (runRows w dir listing mid mname debug rows cache).records⟩
           :: (runModels w dir listing debug rows ms
                (runRows w dir listing mid mname debug rows cache).cache).outputs,
         (runModels w dir listing debug rows ms
           (runRows w dir listing mid mname debug rows cache).cache).cache,
         (runRows w dir listing mid mname debug rows cache).descCalls
           ++ (runModels w dir listing debug rows ms
                (runRows w dir listing mid mname debug rows cache).cache).descCalls⟩ :=
  rfl

/-! ## Run loop invariants -/

theorem runRows_mono (w : World) (dir : Str) (listing : List Str) (mid mname : Str)
    (debug : Bool) :
    ∀ (rows : List Row) (cache : Dict) (k v : Str), dget cache k = some v →
      dget (runRows w dir listing mid mname debug rows cache).cache k = some v := by
  intro rows
  induction rows with
  | nil =>
    intro cache k v hv
    exact hv
  | cons row rest ih =>
    intro cache k v hv
    rw [runRows_cons]
    exact ih _ k v (process_row_mono w row dir listing cache mid mname debug k v hv)

theorem runRows_nocall (w : World) (dir : Str) (listing : List Str) (mid mname : Str)
    (debug : Bool) :
    ∀ (rows : List Row) (cache : Dict) (id dsc : Str), dget cache id = some dsc →
      id ∉ (runRows w dir listing mid mname debug rows cache).descCalls
      ∧ dget (runRows w dir listing mid mname debug rows cache).cache id = some dsc := by
  intro rows
  induction rows with
  | nil =>
    intro cache id dsc h
    exact ⟨List.not_mem_nil id, h⟩
  | cons row rest ih =>
    intro cache id dsc h
    obtain ⟨h1, h2⟩ :=
      process_row_cached_nocall w row dir listing cache mid mname debug id dsc h
    obtain ⟨h3, h4⟩ := ih _ id dsc h2
    rw [runRows_cons]
    refine ⟨?_, h4⟩
    intro hmem
    rcases List.mem_append.1 hmem with hm | hm
    · exact h1 hm
    · exact h3 hm

theorem runModels_mono (w : World) (dir : Str) (listing : List Str) (debug : Bool)
    (rows : List Row) :
    ∀ (models : List (Str × Str)) (cache : Dict) (k v : Str), dget cache k = some v →
      dget (runModels w dir listing debug rows models cache).cache k = some v := by
  intro models
  induction models with
  | nil =>
    intro cache k v hv
    exact hv
  | cons m ms ih =>
    obtain ⟨mid, mname⟩ := m
    intro cache k v hv
    rw [runModels_cons]
    exact ih _ k v (runRows_mono w dir listing mid mname debug rows cache k v hv)

theorem runModels_nocall (w : World) (dir : Str) (listing : List Str) (debug : Bool)
    (rows : List Row) :
    ∀ (models : List (Str × Str)) (cache : Dict) (id dsc : Str),
      dget cache id = some dsc →
      id ∉ (runModels w dir listing debug rows models cache).descCalls
      ∧ dget (runModels w dir listing debug rows models cache).cache id = some dsc := by
  intro models
  induction models with
  | nil =>
    intro cache id dsc h
    exact ⟨List.not_mem_nil id, h⟩
  | cons m ms ih =>
    obtain ⟨mid, mname⟩ := m
    intro cache id dsc h
    obtain ⟨h1, h2⟩ := runRows_nocall w dir listing mid mname debug rows cache id dsc h
    obtain ⟨h3, h4⟩ := ih _ id dsc h2
    rw [runModels_cons]
    refine ⟨?_, h4⟩
    intro hmem
    rcases List.mem_append.1 hmem with hm | hm
    · exact h1 hm
    · exact h3 hm

theorem runRows_keysNodup (w : World) (dir : Str) (listing : List Str) (mid mname : Str)
    (debug : Bool) :
    ∀ (rows : List Row) (cache : Dict), (cache.map Prod.fst).Nodup →
      (((runRows w dir listing mid mname debug rows cache).cache).map Prod.fst).Nodup := by
  intro rows
  induction rows with
  | nil =>
    intro cache h
    exact h
  | cons row rest ih =>
    intro cache h
    rw [runRows_cons]
    exact ih _ (process_row_keysNodup w row dir listing cache mid mname debug h)

theorem runModels_keysNodup (w : World) (dir : Str) (listing : List Str) (debug : Bool)
    (rows : List Row) :
    ∀ (models : List (Str × Str)) (cache : Dict), (cache.map Prod.fst).Nodup →
      (((runModels w dir listing debug rows models cache).cache).map Prod.fst).Nodup := by
  intro models
  induction models with
  | nil =>
    intro cache h
    exact h
  | cons m ms ih =>
    obtain ⟨mid, mname⟩ := m
    intro cache h
    rw [runModels_cons]
    exact ih _ (runRows_keysNodup w dir listing mid mname debug rows cache h)

theorem runRows_inv (w : World) (dir : Str) (listing : List Str) (mid mname : Str)
    (debug : Bool) (h : noDescRaise w debug) :
    ∀ (rows : List Row) (cache : Dict),
      (runRows w dir listing mid mname debug rows cache).descCalls.Nodup
      ∧ ∀ id ∈ (runRows w dir listing mid mname debug rows cache).descCalls,
          dget cache id = none
          ∧ (dget (runRows w dir listing mid mname debug rows cache).cache id).isSome
            = true := by
  intro rows
  induction rows with
  | nil =>
    intro cache
    exact ⟨List.nodup_nil, fun id hid => absurd hid (List.not_mem_nil id)⟩
  | cons row rest ih =>
    intro cache
    obtain ⟨ihn, ihm⟩ := ih (process_row w row dir listing cache mid mname debug).cache
    rcases process_row_calls w row dir listing cache mid mname debug h with
      ⟨hc1, hc2⟩ | ⟨iid, dsc, hc1, hc2, hc3⟩
    · constructor
      · rw [runRows_cons, hc1]
        simpa using ihn
      · intro id hid
        rw [runRows_cons] at hid ⊢
        rw [hc1] at hid
        simp only [List.nil_append] at hid
        obtain ⟨hm1, hm2⟩ := ihm id hid
        rw [hc2] at hm1
        exact ⟨hm1, hm2⟩
    · constructor
      · rw [runRows_cons, hc1]
        show (iid :: (runRows w dir listing mid mname debug rest
          (process_row w row dir listing cache mid mname debug).cache).descCalls).Nodup
        rw [List.nodup_cons]
        refine ⟨?_, ihn⟩
        intro hmem
        obtain ⟨hm1, _⟩ := ihm iid hmem
        rw [hc3, dget_dictInsert, if_pos rfl] at hm1
        cases hm1
      · intro id hid
        rw [runRows_cons] at hid ⊢
        rw [hc1] at hid
        simp only [List.singleton_append, List.mem_cons] at hid
        rcases hid with rfl | hid
        · refine ⟨hc2, ?_⟩
          have hins : dget (process_row w row dir listing cache mid mname debug).cache id
              = some dsc := by
            rw [hc3, dget_dictInsert, if_pos rfl]
          have := runRows_mono w dir listing mid mname debug rest _ id dsc hins
          rw [this]
          rfl
        · obtain ⟨hm1, hm2⟩ := ihm id hid
          rw [hc3, dget_dictInsert] at hm1
          by_cases hidiid : id = iid
          · rw [if_pos hidiid] at hm1
            cases hm1
          · rw [if_neg hidiid] at hm1
            exact ⟨hm1, hm2⟩

theorem runModels_inv (w : World) (dir : Str) (listing : List Str) (debug : Bool)
    (rows : List Row) (h : noDescRaise w debug) :
    ∀ (models : List (Str × Str)) (cache : Dict),
      (runModels w dir listing debug rows models cache).descCalls.Nodup
      ∧ ∀ id ∈ (runModels w dir listing debug rows models cache).descCalls,
          dget cache id = none
          ∧ (dget (runModels w dir listing debug rows models cache).cache id).isSome
            = true := by
  intro models
  induction models with
  | nil =>
    intro cache
    exact ⟨List.nodup_nil, fun id hid => absurd hid (List.not_mem_nil id)⟩
  | cons m ms ih =>
    obtain ⟨mid, mname⟩ := m
    intro cache
    obtain ⟨rrn, rrm⟩ := runRows_inv w dir listing mid mname debug h rows cache
    obtain ⟨ihn, ihm⟩ := ih (runRows w dir listing mid mname debug rows cache).cache
    constructor
    · rw [runModels_cons]
      rw [List.nodup_append]
      refine ⟨rrn, ihn, ?_⟩
      intro id hid1 hid2
      obtain ⟨_, hsome⟩ := rrm id hid1
      obtain ⟨hnone, _⟩ := ihm id hid2
      rw [hnone] at hsome
      cases hsome
    · intro id hid
      rw [runModels_cons] at hid ⊢
      rcases List.mem_append.1 hid with hm | hm
      · obtain ⟨hm1, hm2⟩ := rrm id hm
        obtain ⟨v, hv⟩ := Option.isSome_iff_exists.1 hm2
        refine ⟨hm1, ?_⟩
        rw [runModels_mono w dir listing debug rows ms _ id v hv]
        rfl
      · obtain ⟨hm1, hm2⟩ := ihm id hm
        refine ⟨?_, hm2⟩
        cases hd : dget cache id with
        | none => rfl
        | some v =>
          rw [runRows_mono w dir listing mid mname debug rows cache id v hd] at hm1
          cases hm1

theorem nodup_count_le_one (l : List Str) (h : l.Nodup) (a : Str) : l.count a ≤ 1 := by
  induction l with
  | nil => simp
  | cons x xs ih =>
    rw [List.nodup_cons] at h
    rw [List.count_cons]
    by_cases hx : a = x
    · subst hx
      have h0 : xs.count a = 0 := by
        rw [List.count_eq_zero]
        exact h.1
      simp [h0]
    · have hbx : (x == a) = false := by
        rw [beq_eq_false_iff_ne]
        exact fun hh => hx hh.symm
      rw [hbx]
      simpa using ih h.2

/-- Counterexample to C2: C2 claims `get_image_description` is called at
most once per distinct image identifier over the whole run. In a world
where reading the image file raises (so the exception propagates out of
`process_row` before the cache write and is caught by the per-row loop),
the cache is never filled: a run over two rows sharing `image_id` 7 and
the six configured models calls the provider twelve times for id 7. -/
theorem c2_counterexample :
    (process_csv_file failReadWorld sharedIdContent ("imgs".toList) ["7.png".toList]
      false none).descCalls.count ("7".toList) = 12 := by
  decide

/-- C2 amended: the description cache always holds at most one entry per
distinct image identifier (its key list has no duplicates); and provided
no description attempt raises (debug mode, or every image file readable —
API failures are caught and cached as the error string),
`get_image_description` is invoked at most once per identifier over the
whole run, all rows and models included. A describe call that raises
through `encode_image` leaves no cache entry, so a later row with the same
identifier triggers a new call. -/
theorem c2_amended (w : World) (content : Str) (dir : Str) (listing : List Str)
    (debug : Bool) (limit : Option Nat) :
    (((process_csv_file w content dir listing debug limit).cache).map Prod.fst).Nodup
    ∧ (noDescRaise w debug →
        ∀ id : Str,
          (process_csv_file w content dir listing debug limit).descCalls.count id ≤ 1) := by
  constructor
  · exact runModels_keysNodup w dir listing debug (baseRows content limit) MODELS []
      (by simp)
  · intro h id
    have hinv :=
      (runModels_inv w dir listing debug (baseRows content limit) h MODELS []).1
    exact nodup_count_le_one _ hinv id

/-- Witness for C2's amended statement: the shared-id two-row table, run in
a world where every read succeeds, calls the provider at most once for
id 7 and keeps the cache duplicate-free. -/
theorem c2_amended_witness :
    (((process_csv_file inertWorld sharedIdContent ("imgs".toList) ["7.png".toList]
        false none).cache).map Prod.fst).Nodup
    ∧ (process_csv_file inertWorld sharedIdContent ("imgs".toList) ["7.png".toList]
        false none).descCalls.count ("7".toList) ≤ 1 :=
  ⟨(c2_amended inertWorld sharedIdContent ("imgs".toList) ["7.png".toList] false
      none).1,
   (c2_amended inertWorld sharedIdContent ("imgs".toList) ["7.png".toList] false
      none).2 (Or.inr fun _ => ⟨"b64".toList, rfl⟩) ("7".toList)⟩

/-- C10: if the first description attempt for an uncached identifier fails
in the call layer (file read ok, vision call raises), the fixed error
string is stored in the description cache under that identifier and the
row is processed with it; any cached description is reused verbatim by
every later row with that identifier (no vision call); and once an
identifier is in the cache, `get_image_description` is never invoked for
it again anywhere in the rest of the run — any remaining rows and models
— and its cached value is unchanged at the end. -/
theorem c10_error_cached (w : World) (dir : Str) (listing : List Str) :
    (∀ (row : Row) (cache : Dict) (mid mname : Str) (p b er : Str),
      rowField row ("image_id".toList) ≠ [] → rowField row ("en".toList) ≠ [] →
      dget cache (rowField row ("image_id".toList)) = none →
      get_image_path dir listing (rowField row ("image_id".toList)) = some p →
      w.readImage p = Except.ok b →
      w.visionCall ("data:image/png;base64,".toList ++ b) = Except.error er →
      process_row w row dir listing cache mid mname false
        = ⟨Except.ok (applyLoc w row errDescription (rowField row ("en".toList)) mid
            mname false),
           dictInsert (rowField row ("image_id".toList)) errDescription cache,
           [rowField row ("image_id".toList)], true⟩)
    ∧ (∀ (row : Row) (cache : Dict) (mid mname : Str) (debug : Bool) (dsc : Str),
        rowField row ("image_id".toList) ≠ [] → rowField row ("en".toList) ≠ [] →
        dget cache (rowField row ("image_id".toList)) = some dsc →
        process_row w row dir listing cache mid mname debug
          = ⟨Except.ok (applyLoc w row dsc (rowField row ("en".toList)) mid mname debug),
             cache, [], true⟩)
    ∧ (∀ (debug : Bool) (models : List (Str × Str)) (rows : List Row) (cache : Dict)
        (id dsc : Str), dget cache id = some dsc →
        id ∉ (runModels w dir listing debug rows models cache).descCalls
        ∧ dget (runModels w dir listing debug rows models cache).cache id = some dsc) := by
  refine ⟨?_, ?_, ?_⟩
  · intro row cache mid mname p b er hbi hbe hc hp hb hv
    have henc : encode_image w p = Except.ok ("data:image/png;base64,".toList ++ b) := by
      unfold encode_image
      rw [hb]
    have hg : get_image_description w p false = Except.ok errDescription := by
      rw [gid_normal, henc]
      simp only []
      rw [hv]
    exact process_row_fresh w row dir listing cache mid mname false p errDescription hbi
      hbe hc hp hg
  · intro row cache mid mname debug dsc hbi hbe hc
    exact process_row_cached w row dir listing cache mid mname debug dsc hbi hbe hc
  · intro debug models rows cache id dsc h
    exact runModels_nocall w dir listing debug rows models cache id dsc h

/-- Witness for C10: with a readable file and a failing vision call, the row
with id 7 stores the error string in the cache; and with id 7 cached, a
whole-run loop never calls the provider for it again. -/
theorem c10_error_cached_witness :
    process_row visionFailWorld rowOk ("imgs".toList) ["7.png".toList] []
        ("m".toList) ("n".toList) false
      = ⟨Except.ok (applyLoc visionFailWorld rowOk errDescription
            (rowField rowOk ("en".toList)) ("m".toList) ("n".toList) false),
         dictInsert (rowField rowOk ("image_id".toList)) errDescription [],
         [rowField rowOk ("image_id".toList)], true⟩
    ∧ ("7".toList : Str) ∉ (runModels visionFailWorld ("imgs".toList) ["7.png".toList]
        false [rowOk] MODELS [("7".toList, "d".toList)]).descCalls
    ∧ dget (runModels visionFailWorld ("imgs".toList) ["7.png".toList]
        false [rowOk] MODELS [("7".toList, "d".toList)]).cache ("7".toList)
      = some ("d".toList) :=
  ⟨(c10_error_cached visionFailWorld ("imgs".toList) ["7.png".toList]).1 rowOk []
      ("m".toList) ("n".toList) ("imgs/7.png".toList) ("b64".toList) ("net".toList)
      (by decide) (by decide) rfl (by decide) rfl rfl,
   ((c10_error_cached visionFailWorld ("imgs".toList) ["7.png".toList]).2.2 false MODELS
      [rowOk] [("7".toList, "d".toList)] ("7".toList) ("d".toList) rfl).1,
   ((c10_error_cached visionFailWorld ("imgs".toList) ["7.png".toList]).2.2 false MODELS
      [rowOk] [("7".toList, "d".toList)] ("7".toList) ("d".toList) rfl).2⟩

/-! ## Blank rows across the run -/

theorem isEmpty_false_of_ne_nil (l : Str) (h : l ≠ []) : l.isEmpty = false := by
  cases l with
  | nil => exact absurd rfl h
  | cons a t => rfl

theorem keptOf_ok_some_eq (row urow : Row) (dsc : Str) :
    keptOf row (Except.ok (urow, some dsc))
      = (urow, if urow = [] ∨ dsc = [] then [] else [mkRecord urow dsc]) := rfl

theorem recNonblank_mkRecord (w : World) (row : Row) (dir : Str) (listing : List Str)
    (cache : Dict) (mid mname : Str) (debug : Bool) (urow : Row) (dsc : Str)
    (ho : (process_row w row dir listing cache mid mname debug).outcome
          = Except.ok (urow, some dsc)) :
    recNonblank (mkRecord urow dsc) = true := by
  obtain ⟨hbi, hbe, hiid, hen⟩ :=
    process_row_ok_some w row dir listing cache mid mname debug urow dsc ho
  obtain ⟨s, hs, hps, _⟩ := rowField_ne row ("image_id".toList) hbi
  obtain ⟨s2, hs2, hps2, _⟩ := rowField_ne row ("en".toList) hbe
  show (!(pyStrip ((dget urow ("image_id".toList)).getD [])).isEmpty
    && !(pyStrip ((dget urow ("en".toList)).getD [])).isEmpty) = true
  rw [hiid, hen, hs, hs2]
  show (!(pyStrip s).isEmpty && !(pyStrip s2).isEmpty) = true
  rw [isEmpty_false_of_ne_nil _ hps, isEmpty_false_of_ne_nil _ hps2]
  rfl

theorem runRows_records (w : World) (dir : Str) (listing : List Str) (mid mname : Str)
    (debug : Bool) :
    ∀ (rows : List Row) (cache : Dict) (rec : JsonRecord),
      rec ∈ (runRows w dir listing mid mname debug rows cache).records →
      recNonblank rec = true := by
  intro rows
  induction rows with
  | nil =>
    intro cache rec h
    exact absurd h (List.not_mem_nil rec)
  | cons row rest ih =>
    intro cache rec h
    rw [runRows_cons] at h
    rcases List.mem_append.1 h with hm | hm
    · cases ho : (process_row w row dir listing cache mid mname debug).outcome with
      | error e =>
        rw [ho] at hm
        simp [keptOf] at hm
      | ok pr =>
        obtain ⟨urow, odsc⟩ := pr
        cases odsc with
        | none =>
          rw [ho] at hm
          simp [keptOf] at hm
        | some dsc =>
          rw [ho, keptOf_ok_some_eq] at hm
          by_cases hud : urow = [] ∨ dsc = []
          · rw [if_pos hud] at hm
            exact absurd hm (List.not_mem_nil rec)
          · rw [if_neg hud] at hm
            rcases List.mem_singleton.1 hm with rfl
            exact recNonblank_mkRecord w row dir listing cache mid mname debug urow dsc ho
    · exact ih _ rec hm

theorem runModels_records (w : World) (dir : Str) (listing : List Str) (debug : Bool)
    (rows : List Row) :
    ∀ (models : List (Str × Str)) (cache : Dict) (out : ModelOutput),
      out ∈ (runModels w dir listing debug rows models cache).outputs →
      ∀ rec ∈ out.records, recNonblank rec = true := by
  intro models
  induction models with
  | nil =>
    intro cache out hout
    exact absurd hout (List.not_mem_nil out)
  | cons m ms ih =>
    obtain ⟨mid, mname⟩ := m
    intro cache out hout
    rw [runModels_cons] at hout
    rcases List.mem_cons.1 hout with rfl | hout'
    · intro rec hrec
      exact runRows_records w dir listing mid mname debug rows cache rec hrec
    · exact ih _ out hout'

theorem runRows_blank_get (w : World) (dir : Str) (listing : List Str) (mid mname : Str)
    (debug : Bool) :
    ∀ (rows : List Row) (cache : Dict) (i : Nat) (r : Row),
      rows.get? i = some r →
      rowField r ("image_id".toList) = [] ∨ rowField r ("en".toList) = [] →
      (runRows w dir listing mid mname debug rows cache).rows.get? i = some r := by
  intro rows
  induction rows with
  | nil =>
    intro cache i r h hb
    rw [List.get?_nil] at h
    cases h
  | cons row rest ih =>
    intro cache i r h hb
    cases i with
    | zero =>
      rw [List.get?_cons_zero] at h
      injection h with h1
      subst h1
      rw [runRows_cons, List.get?_cons_zero,
        process_row_blank w row dir listing cache mid mname debug hb]
      rfl
    | succ j =>
      rw [List.get?_cons_succ] at h
      rw [runRows_cons, List.get?_cons_succ]
      exact ih _ j r h hb

theorem runModels_blank_get (w : World) (dir : Str) (listing : List Str) (debug : Bool)
    (rows : List Row) :
    ∀ (models : List (Str × Str)) (cache : Dict) (i : Nat) (r : Row),
      rows.get? i = some r →
      rowField r ("image_id".toList) = [] ∨ rowField r ("en".toList) = [] →
      ∀ out ∈ (runModels w dir listing debug rows models cache).outputs,
        out.rows.get? i = some r ∧ out.csv = write_semicolon_csv out.rows HEADERS := by
  intro models
  induction models with
  | nil =>
    intro cache i r _ _ out hout
    exact absurd hout (List.not_mem_nil out)
  | cons m ms ih =>
    obtain ⟨mid, mname⟩ := m
    intro cache i r h hb out hout
    rw [runModels_cons] at hout
    rcases List.mem_cons.1 hout with rfl | hout'
    · exact ⟨runRows_blank_get w dir listing mid mname debug rows cache i r h hb, rfl⟩
    · exact ih _ i r h hb out hout'

/-- C8: a base row whose `image_id` or `en` is blank after trimming appears
unmodified (all 8 fields intact) at its position in every model's table
output, whose CSV text is the serialization of that model's row set; and
it contributes no structured record: every record in every model's
structured-record output carries a non-blank trimmed `image_id` and `en`
(records are only appended for rows that passed the blank-field guard,
whose `image_id`/`en` fields the language updates never touch). -/
theorem c8_blank_rows (w : World) (content : Str) (dir : Str) (listing : List Str)
    (debug : Bool) (limit : Option Nat) (i : Nat) (r : Row) (out : ModelOutput)
    (hget : (baseRows content limit).get? i = some r)
    (hblank : rowField r ("image_id".toList) = [] ∨ rowField r ("en".toList) = [])
    (hout : out ∈ (process_csv_file w content dir listing debug limit).outputs) :
    out.rows.get? i = some r
    ∧ out.csv = write_semicolon_csv out.rows HEADERS
    ∧ out.records.all recNonblank = true := by
  obtain ⟨h1, h2⟩ :=
    runModels_blank_get w dir listing debug (baseRows content limit) MODELS [] i r hget
      hblank out hout
  refine ⟨h1, h2, List.all_eq_true.2 ?_⟩
  exact runModels_records w dir listing debug (baseRows content limit) MODELS [] out hout

/-- Witness for C8: in the concrete two-row table whose first row has a
blank `image_id`, the first model's output keeps that row unchanged at
index 0 and its record list passes the non-blank check (it is empty). -/
theorem c8_blank_rows_witness :
    ((process_csv_file inertWorld blankFieldsContent ("imgs".toList) ["7.png".toList]
        true none).outputs.headD ⟨[], [], [], []⟩).rows.get? 0 = some blankRow0
    ∧ ((process_csv_file inertWorld blankFieldsContent ("imgs".toList) ["7.png".toList]
        true none).outputs.headD ⟨[], [], [], []⟩).csv
      = write_semicolon_csv
          ((process_csv_file inertWorld blankFieldsContent ("imgs".toList)
            ["7.png".toList] true none).outputs.headD ⟨[], [], [], []⟩).rows HEADERS
    ∧ ((process_csv_file inertWorld blankFieldsContent ("imgs".toList) ["7.png".toList]
        true none).outputs.headD ⟨[], [], [], []⟩).records.all recNonblank = true :=
  c8_blank_rows inertWorld blankFieldsContent ("imgs".toList) ["7.png".toList] true none
    0 blankRow0 _ (by decide) (by decide) (by decide)
